import Mathlib

/-!
# C++ interoperability support header: a verification development

Embedding of `lib/PrintAsClang/_SwiftCxxInteroperability.h`:

* `RefCountedClass`  - base class of a reference counted class value,
* `OpaqueStorage`    - container owning the heap block of an opaque value,
* `Expected<T>`      - either a value or an error, in one inline buffer.

C++ objects have identity and their members are mutated in place, so every
class is embedded as a table of objects indexed by identity together with the
calls the object code makes to its environment (the foreign runtime, the
platform allocator).  A member function becomes a function on that state and
returns in `Except Fault`.
-/

namespace swift

/-- A raw machine address (`void *`, `char *`); address 0 is `nullptr`. -/
abbrev Ptr := Nat

/-- The null pointer. -/
def nullptr : Ptr := 0

/-- The ways a call does not return.  `abort` is a call of `abort()`, which
terminates the process.  `undefined` marks an execution to which C++ gives no
meaning: a member of an object outside its lifetime is used, or the inline
buffer is read as the type that is not alive in it. -/
inductive Fault where
  | abort
  | undefined
  deriving DecidableEq

/-- Results of calls can be compared. -/
instance instDecidableEqExcept {ε α : Type} [DecidableEq ε] [DecidableEq α] :
    DecidableEq (Except ε α)
  | .ok a, .ok b => if h : a = b then isTrue (by rw [h]) else isFalse (by intro e; cases e; exact h rfl)
  | .error a, .error b =>
    if h : a = b then isTrue (by rw [h]) else isFalse (by intro e; cases e; exact h rfl)
  | .ok _, .error _ => isFalse (by intro e; cases e)
  | .error _, .ok _ => isFalse (by intro e; cases e)

/-! ## The foreign runtime -/

/-- One call into the foreign runtime, as an instrumented runtime observes it. -/
inductive Call where
  | retain (p : Ptr)
  | release (p : Ptr)
  deriving DecidableEq

/-- State in which `RefCountedClass` code runs.

* `objects`: the `RefCountedClass` objects by identity; `some p` is a live
  object whose member `_opaquePointer` is `p`, `none` an object whose
  destructor has run.
* `adopted`: bookkeeping only, the pointers handed to the protected
  constructor, each of which comes with one credit owned by the caller.
* `calls`: the calls of `swift_retain` and `swift_release`, oldest first. -/
structure Runtime where
  objects : List (Option Ptr)
  adopted : List Ptr
  calls : List Call
  deriving DecidableEq

/-- The state before any handle exists. -/
def Runtime.init : Runtime := { objects := [], adopted := [], calls := [] }

/-- Modelled from the spec: `swift_retain` is only declared in the header; the
foreign runtime defines it.  It accepts a foreign pointer,
adds one credit to that object and never fails.  The credit shows as one more
observed retain call. -/
def swift_retain (p : Ptr) (w : Runtime) : Runtime :=
  { w with calls := w.calls ++ [Call.retain p] }

/-- Modelled from the spec: `swift_release` is only declared in the header; the
foreign runtime defines it.  It accepts a foreign pointer,
gives one credit of that object back and never fails from the point of view of
the caller. -/
def swift_release (p : Ptr) (w : Runtime) : Runtime :=
  { w with calls := w.calls ++ [Call.release p] }

/-- Number of `swift_retain` calls on `p` in a call log. -/
def retainCalls (calls : List Call) (p : Ptr) : Nat := calls.count (Call.retain p)

/-- Number of `swift_release` calls on `p` in a call log. -/
def releaseCalls (calls : List Call) (p : Ptr) : Nat := calls.count (Call.release p)

/-- Credits held against the object at `p` once the calls of `calls` have been
made: adopted credits plus retains minus releases. -/
def creditsAt (adopted : List Ptr) (calls : List Call) (p : Ptr) : Int :=
  (adopted.count p : Int) + (retainCalls calls p : Int) - (releaseCalls calls p : Int)

/-- Credits held against the object at `p` in state `w`. -/
def Runtime.credits (w : Runtime) (p : Ptr) : Int := creditsAt w.adopted w.calls p

/-- Number of live handles whose `_opaquePointer` is `p`. -/
def Runtime.liveHandles (w : Runtime) (p : Ptr) : Nat := w.objects.count (some p)

/-- Read the member `_opaquePointer` of the object `h`. -/
def Runtime.load (w : Runtime) (h : Nat) : Except Fault Ptr :=
  match w.objects[h]? with
  | some (some p) => .ok p
  | _ => .error Fault.undefined

/-- Write the member `_opaquePointer` of the object `h`. -/
def Runtime.store (w : Runtime) (h : Nat) (p : Ptr) : Runtime :=
  { w with objects := w.objects.set h (some p) }

/-! ## `RefCountedClass` -/

namespace RefCountedClass

/-- Source: `inline RefCountedClass(void *_Nonnull ptr) noexcept : _opaquePointer(ptr) {}`
(protected).  The new object is returned by identity.  No runtime call is made;
the credit that comes with `ptr` is noted in `adopted`. -/
def construct (ptr : Ptr) (w : Runtime) : Nat × Runtime :=
  (w.objects.length,
    { w with objects := w.objects ++ [some ptr], adopted := w.adopted ++ [ptr] })

/-- Source: `inline RefCountedClass(const RefCountedClass &other) noexcept
      : _opaquePointer(other._opaquePointer) { swift_retain(_opaquePointer); }` -/
def copyConstruct (other : Nat) (w : Runtime) : Except Fault (Nat × Runtime) := do
  let p ← w.load other
  let this := w.objects.length
  let w1 : Runtime := { w with objects := w.objects ++ [some p] }
  let q ← w1.load this
  pure (this, swift_retain q w1)

/-- Source: `inline RefCountedClass &operator=(const RefCountedClass &other) noexcept {
      swift_retain(other._opaquePointer);
      swift_release(_opaquePointer);
      _opaquePointer = other._opaquePointer;
      return *this; }` -/
def operatorAssign (this other : Nat) (w : Runtime) : Except Fault Runtime := do
  let po ← w.load other
  let w1 := swift_retain po w
  let pt ← w1.load this
  let w2 := swift_release pt w1
  let po2 ← w2.load other
  pure (w2.store this po2)

/-- Source: `inline ~RefCountedClass() { swift_release(_opaquePointer); }`; the
lifetime of the object ends. -/
def destroy (this : Nat) (w : Runtime) : Except Fault Runtime := do
  let p ← w.load this
  let w1 := swift_release p w
  pure { w1 with objects := w1.objects.set this none }

/-- Source: `inline RefCountedClass(RefCountedClass &&) noexcept { abort(); }`.
The result comes with the state in which the call ends, here the state in
which the process terminates. -/
def moveConstruct (_other : Nat) (w : Runtime) : Except Fault Nat × Runtime :=
  (.error Fault.abort, w)

end RefCountedClass

/-! ## `_impl_RefCountedClass` -/

namespace _impl_RefCountedClass

/-- Source: `static inline void *getOpaquePointer(const RefCountedClass &object) {
      return object._opaquePointer; }` -/
def getOpaquePointer (object : Nat) (w : Runtime) : Except Fault (Ptr × Runtime) := do
  let p ← w.load object
  pure (p, w)

/-- Source: `static inline void *copyOpaquePointer(const RefCountedClass &object) {
      swift_retain(object._opaquePointer);
      return object._opaquePointer; }` -/
def copyOpaquePointer (object : Nat) (w : Runtime) : Except Fault (Ptr × Runtime) := do
  let p ← w.load object
  let w1 := swift_retain p w
  let q ← w1.load object
  pure (q, w1)

end _impl_RefCountedClass

/-- One operation of a program on handles. -/
inductive HandleOp where
  | construct (ptr : Ptr)
  | copyConstruct (other : Nat)
  | operatorAssign (this other : Nat)
  | destroy (this : Nat)
  deriving DecidableEq

/-- Effect of one operation. -/
def HandleOp.step (op : HandleOp) (w : Runtime) : Except Fault Runtime :=
  match op with
  | .construct ptr => .ok (RefCountedClass.construct ptr w).2
  | .copyConstruct other => (RefCountedClass.copyConstruct other w).map Prod.snd
  | .operatorAssign this other => RefCountedClass.operatorAssign this other w
  | .destroy this => RefCountedClass.destroy this w

/-- The object `h` is within its lifetime. -/
def Runtime.isLive (w : Runtime) (h : Nat) : Bool :=
  match w.objects[h]? with
  | some (some _) => true
  | _ => false

/-- The operation only uses handles that are within their lifetime. -/
def HandleOp.defined (op : HandleOp) (w : Runtime) : Bool :=
  match op with
  | .construct _ => true
  | .copyConstruct other => w.isLive other
  | .operatorAssign this other => w.isLive this && w.isLive other
  | .destroy this => w.isLive this

/-- The operation is a copy construction. -/
def HandleOp.isCopyConstruct : HandleOp → Bool
  | .copyConstruct _ => true
  | _ => false

/-- The operation is a destruction. -/
def HandleOp.isDestroy : HandleOp → Bool
  | .destroy _ => true
  | _ => false

/-- Effect of a sequence of operations, first operation first. -/
def runHandleOps : List HandleOp → Runtime → Except Fault Runtime
  | [], w => .ok w
  | op :: ops, w => do
    let w1 ← op.step w
    runHandleOps ops w1

/-- The credit invariant: the credits held against every object are as many
as the live handles on it. -/
def Runtime.Balanced (w : Runtime) : Prop := ∀ p, w.credits p = (w.liveHandles p : Int)

/-- State of a family of handles on `P`: one adopted credit, and every handle
that is live points at `P`. -/
def Runtime.FamilyOf (w : Runtime) (P : Ptr) : Prop :=
  w.adopted = [P] ∧ ∀ o ∈ w.objects, o = none ∨ o = some P

/-! ## The platform allocator -/

/-- Modelled from the spec: the platform the header is compiled for, which the
header only uses (`sizeof(void *)`, `posix_memalign` of `<stdlib.h>`).
`posix_memalign memptr alignment size` gives the pointer found in `*memptr`
after the call and the returned status. -/
structure Platform where
  sizeofVoidPtr : Nat
  posix_memalign : Ptr → Nat → Nat → Ptr × Int

/-- The branch taken when `_WIN32` is not defined:
`inline void *opaqueAlloc(size_t size, size_t align) noexcept {
    if (align < sizeof(void *)) align = sizeof(void *);
    void *r = nullptr;
    int res = posix_memalign(&r, align, size);
    (void)res;
    return r; }` -/
def opaqueAlloc (pf : Platform) (size align : Nat) : Ptr :=
  let align := if align < pf.sizeofVoidPtr then pf.sizeofVoidPtr else align
  let r := nullptr
  let (r, _res) := pf.posix_memalign r align size
  r

/-- The alignment `opaqueAlloc` hands to `posix_memalign` for a requested
`align`: the value of `align` after
`if (align < sizeof(void *)) align = sizeof(void *);`. -/
def allocAlign (pf : Platform) (align : Nat) : Nat :=
  if align < pf.sizeofVoidPtr then pf.sizeofVoidPtr else align

/-- Modelled from the spec: the platform allocator succeeds on a request: the
status is 0 and `*memptr` is a non-null address that is a multiple of the
alignment asked for. -/
def Platform.succeedsAt (pf : Platform) (memptr : Ptr) (alignment size : Nat) : Bool :=
  (pf.posix_memalign memptr alignment size).2 == 0 &&
    (pf.posix_memalign memptr alignment size).1 != nullptr &&
    (pf.posix_memalign memptr alignment size).1 % alignment == 0

/-- Modelled from the spec: the platform allocator fails on a request: the
status is not 0 and `*memptr` is left as it was found. -/
def Platform.failsAt (pf : Platform) (memptr : Ptr) (alignment size : Nat) : Bool :=
  (pf.posix_memalign memptr alignment size).2 != 0 &&
    (pf.posix_memalign memptr alignment size).1 == memptr

/-- State in which `OpaqueStorage` code runs.

* `objects`: the `OpaqueStorage` objects by identity; `some p` is a live object
  whose member `storage` is `p` (possibly `nullptr`), `none` an object whose
  destructor has run.
* `allocated`: bookkeeping only, the non-null pointers `opaqueAlloc` returned,
  oldest first.
* `freed`: the pointers passed to `opaqueFree`, oldest first. -/
structure Heap where
  objects : List (Option Ptr)
  allocated : List Ptr
  freed : List Ptr
  deriving DecidableEq

/-- The state before any container exists. -/
def Heap.init : Heap := { objects := [], allocated := [], freed := [] }

/-- Source: `inline void opaqueFree(void *_Nonnull p) noexcept { free(p); }`: the call
is observed in `freed`. -/
def opaqueFree (p : Ptr) (m : Heap) : Heap :=
  { m with freed := m.freed ++ [p] }

/-- Read the member `storage` of the object `c`. -/
def Heap.load (m : Heap) (c : Nat) : Except Fault Ptr :=
  match m.objects[c]? with
  | some (some p) => .ok p
  | _ => .error Fault.undefined

/-- Write the member `storage` of the object `c`. -/
def Heap.store (m : Heap) (c : Nat) (p : Ptr) : Heap :=
  { m with objects := m.objects.set c (some p) }

/-- Number of live containers whose `storage` is `p`. -/
def Heap.holders (m : Heap) (p : Ptr) : Nat := m.objects.count (some p)

/-- The block at `p` is allocated and not yet freed. -/
def Heap.isAllocated (m : Heap) (p : Ptr) : Bool := m.freed.count p < m.allocated.count p

/-! ## `OpaqueStorage` -/

namespace OpaqueStorage

/-- Source: `inline OpaqueStorage() noexcept : storage(nullptr) {}` -/
def defaultConstruct (m : Heap) : Nat × Heap :=
  (m.objects.length, { m with objects := m.objects ++ [some nullptr] })

/-- Source: `inline OpaqueStorage(size_t size, size_t alignment) noexcept
      : storage(reinterpret_cast<char *>(opaqueAlloc(size, alignment))) {}`;
a non-null result is noted in `allocated`. -/
def sizedConstruct (pf : Platform) (size alignment : Nat) (m : Heap) : Nat × Heap :=
  let r := opaqueAlloc pf size alignment
  (m.objects.length,
    { m with objects := m.objects ++ [some r],
             allocated := if r = nullptr then m.allocated else m.allocated ++ [r] })

/-- Source: `inline OpaqueStorage(OpaqueStorage &&other) noexcept : storage(other.storage) {
      other.storage = nullptr; }` -/
def moveConstruct (other : Nat) (m : Heap) : Except Fault (Nat × Heap) := do
  let p ← m.load other
  let this := m.objects.length
  let m1 : Heap := { m with objects := m.objects ++ [some p] }
  pure (this, m1.store other nullptr)

/-- Source: `inline ~OpaqueStorage() noexcept {
      if (storage) { opaqueFree(static_cast<char *_Nonnull>(storage)); } }`; the
lifetime of the object ends. -/
def destroy (this : Nat) (m : Heap) : Except Fault Heap := do
  let storage ← m.load this
  let m1 := if storage ≠ nullptr then opaqueFree storage m else m
  pure { m1 with objects := m1.objects.set this none }

/-- Source: `void operator=(OpaqueStorage &&other) noexcept {
      auto temp = storage;
      storage = other.storage;
      other.storage = temp; }` -/
def operatorAssign (this other : Nat) (m : Heap) : Except Fault Heap := do
  let temp ← m.load this
  let p ← m.load other
  let m1 := m.store this p
  pure (m1.store other temp)

/-- Source: `inline char *_Nonnull getOpaquePointer() noexcept {
      return static_cast<char *_Nonnull>(storage); }` (and its const overload). -/
def getOpaquePointer (this : Nat) (m : Heap) : Except Fault Ptr :=
  m.load this

end OpaqueStorage

/-- One operation of a program on containers.  A sized construction comes with
the platform as it answers that call. -/
inductive StorageOp where
  | defaultConstruct
  | sizedConstruct (pf : Platform) (size alignment : Nat)
  | moveConstruct (other : Nat)
  | operatorAssign (this other : Nat)
  | destroy (this : Nat)

/-- Effect of one operation. -/
def StorageOp.step (op : StorageOp) (m : Heap) : Except Fault Heap :=
  match op with
  | .defaultConstruct => .ok (OpaqueStorage.defaultConstruct m).2
  | .sizedConstruct pf size alignment => .ok (OpaqueStorage.sizedConstruct pf size alignment m).2
  | .moveConstruct other => (OpaqueStorage.moveConstruct other m).map Prod.snd
  | .operatorAssign this other => OpaqueStorage.operatorAssign this other m
  | .destroy this => OpaqueStorage.destroy this m

/-- The object `c` is within its lifetime. -/
def Heap.isLive (m : Heap) (c : Nat) : Bool :=
  match m.objects[c]? with
  | some (some _) => true
  | _ => false

/-- The operation only uses containers that are within their lifetime. -/
def StorageOp.defined (op : StorageOp) (m : Heap) : Bool :=
  match op with
  | .defaultConstruct => true
  | .sizedConstruct _ _ _ => true
  | .moveConstruct other => m.isLive other
  | .operatorAssign this other => m.isLive this && m.isLive other
  | .destroy this => m.isLive this

/-- The allocator keeps its contract at this operation: what a sized
construction obtains is `nullptr` or a block that is not allocated already. -/
def StorageOp.allocatorSound (op : StorageOp) (m : Heap) : Bool :=
  match op with
  | .sizedConstruct pf size alignment =>
    opaqueAlloc pf size alignment = nullptr || !m.isAllocated (opaqueAlloc pf size alignment)
  | _ => true

/-- Effect of a sequence of operations, first operation first. -/
def runStorageOps : List StorageOp → Heap → Except Fault Heap
  | [], m => .ok m
  | op :: ops, m => do
    let m1 ← op.step m
    runStorageOps ops m1

/-- The allocator keeps its contract at every operation of the sequence. -/
def allocatorSoundAlong : List StorageOp → Heap → Bool
  | [], _ => true
  | op :: ops, m =>
    op.allocatorSound m &&
      (match op.step m with
       | .ok m1 => allocatorSoundAlong ops m1
       | .error _ => true)

/-- The single-owner invariant: `nullptr` is never noted as allocated nor
freed, and every other address is held by at most one live container, the
blocks allocated at it being those freed and the one still held. -/
def Heap.SingleOwner (m : Heap) : Prop :=
  m.allocated.count nullptr = 0 ∧ m.freed.count nullptr = 0 ∧
  ∀ p, p ≠ nullptr →
    m.holders p ≤ 1 ∧ (m.holders p : Int) + (m.freed.count p : Int) = (m.allocated.count p : Int)

/-! ## `Expected<T>` -/

/-- Source: `constexpr static std::size_t max(std::size_t a, std::size_t b) {
      return a > b ? a : b; }` -/
def max (a b : Nat) : Nat := if a > b then a else b

/-- The object alive in the member `buffer` of an `Expected<T>`: the object a
placement `new (&buffer) T(...)` or `new (&buffer) Error(...)` constructed
there.  `swift::Error` is declared outside this header and is the type
parameter `E`.  `T` and `swift::Error` are value types: constructing one from
another by copy gives an equal value. -/
inductive Buffer (T E : Type) where
  | ofT (val : T)
  | ofError (error_val : E)
  deriving DecidableEq

/-- Source: `template<class T> class Expected`, its two data members:
`alignas(...) char buffer[max(sizeof(T), sizeof(swift::Error))]; bool has_val;` -/
structure Expected (T E : Type) where
  buffer : Buffer T E
  has_val : Bool
  deriving DecidableEq

/-- The destructor that `~Expected` runs on the buffer. -/
inductive Destructor where
  | ofT
  | ofError
  deriving DecidableEq

namespace Expected

variable {T E : Type}

/-- Source: `constexpr Expected() noexcept { new (&buffer) Error(); has_val = false; }`
where `defaultError` is the value `Error()` constructs. -/
def defaultConstruct (defaultError : E) : Expected T E :=
  { buffer := Buffer.ofError defaultError, has_val := false }

/-- Source: `constexpr Expected(const swift::Error& error_val) noexcept {
      new (&buffer) Error(error_val); has_val = false; }` -/
def ofError (error_val : E) : Expected T E :=
  { buffer := Buffer.ofError error_val, has_val := false }

/-- Source: `constexpr Expected(const T &val) noexcept {
      new (&buffer) T(val); has_val = true; }` -/
def ofValue (val : T) : Expected T E :=
  { buffer := Buffer.ofT val, has_val := true }

/-- Source: `constexpr bool has_value() const noexcept { return has_val; }` -/
def has_value (self : Expected T E) : Bool := self.has_val

/-- Source: `constexpr T const& value() const& {
      if (!has_value()) abort();
      return *reinterpret_cast<const T *>(buffer); }` (and its non-const
overload, read).  Reading the buffer as a `T` when an `Error` is alive in it
is undefined. -/
def value (self : Expected T E) : Except Fault T :=
  if !self.has_value then .error Fault.abort
  else
    match self.buffer with
    | Buffer.ofT val => .ok val
    | Buffer.ofError _ => .error Fault.undefined

/-- Source: `constexpr swift::Error const& error() const& {
      if (has_value()) abort();
      return reinterpret_cast<const swift::Error&>(buffer); }` (and its
non-const overload, read). -/
def error (self : Expected T E) : Except Fault E :=
  if self.has_value then .error Fault.abort
  else
    match self.buffer with
    | Buffer.ofError error_val => .ok error_val
    | Buffer.ofT _ => .error Fault.undefined

/-- Source: `constexpr Expected(Expected const& other) noexcept {
      if (other.has_value()) new (&buffer) T(other.value());
      else new (&buffer) Error(other.error());
      has_val = other.has_value(); }` -/
def copyConstruct (other : Expected T E) : Except Fault (Expected T E) := do
  let buffer ←
    if other.has_value then do
      let val ← other.value
      pure (Buffer.ofT val)
    else do
      let error_val ← other.error
      pure (Buffer.ofError error_val)
  pure { buffer := buffer, has_val := other.has_value }

/-- Source: `constexpr Expected(Expected&&) noexcept { abort(); }`.  The
result comes with the state of the foreign runtime in which the call ends,
here the state in which the process terminates. -/
def moveConstruct (_other : Expected T E) (w : Runtime) :
    Except Fault (Expected T E) × Runtime :=
  (.error Fault.abort, w)

/-- Source: `~Expected() noexcept {
      if (has_value()) reinterpret_cast<const T *>(buffer)->~T();
      else reinterpret_cast<swift::Error *>(buffer)->~Error(); }`; the result
is the destructor that ran. -/
def destroy (self : Expected T E) : Except Fault Destructor :=
  if self.has_value then
    match self.buffer with
    | Buffer.ofT _ => .ok Destructor.ofT
    | Buffer.ofError _ => .error Fault.undefined
  else
    match self.buffer with
    | Buffer.ofError _ => .ok Destructor.ofError
    | Buffer.ofT _ => .error Fault.undefined

/-- Source: `constexpr T const *_Nonnull operator->() const noexcept {
      if (!has_value()) abort();
      return reinterpret_cast<const T *>(buffer); }` (and its non-const
overload); the result is the `T` pointed at. -/
def operatorArrow (self : Expected T E) : Except Fault T :=
  if !self.has_value then .error Fault.abort
  else
    match self.buffer with
    | Buffer.ofT val => .ok val
    | Buffer.ofError _ => .error Fault.undefined

/-- Source: `constexpr T const &operator*() const & noexcept {
      if (!has_value()) abort();
      return reinterpret_cast<const T &>(buffer); }` (and its non-const
overload); the result is the `T` referred to. -/
def operatorStar (self : Expected T E) : Except Fault T :=
  if !self.has_value then .error Fault.abort
  else
    match self.buffer with
    | Buffer.ofT val => .ok val
    | Buffer.ofError _ => .error Fault.undefined

/-- Source: `constexpr explicit operator bool() const noexcept { return has_value(); }` -/
def operatorBool (self : Expected T E) : Bool := self.has_value

/-- Assignment through the reference that the non-const `value()` returns,
`self.value() = x`:
`constexpr T& value() & { if (!has_value()) abort();
      return *reinterpret_cast<T *>(buffer); }` -/
def assignValue (self : Expected T E) (x : T) : Except Fault (Expected T E) :=
  if !self.has_value then .error Fault.abort
  else
    match self.buffer with
    | Buffer.ofT _ => .ok { self with buffer := Buffer.ofT x }
    | Buffer.ofError _ => .error Fault.undefined

/-- Assignment through the reference that the non-const `error()` returns,
`self.error() = e`:
`constexpr swift::Error& error() & { if (has_value()) abort();
      return reinterpret_cast<swift::Error&>(buffer); }` -/
def assignError (self : Expected T E) (e : E) : Except Fault (Expected T E) :=
  if self.has_value then .error Fault.abort
  else
    match self.buffer with
    | Buffer.ofError _ => .ok { self with buffer := Buffer.ofError e }
    | Buffer.ofT _ => .error Fault.undefined

/-- The discriminant names the object alive in the buffer.  Every constructor
establishes this. -/
def valid (self : Expected T E) : Bool :=
  match self.buffer, self.has_val with
  | Buffer.ofT _, true => true
  | Buffer.ofError _, false => true
  | _, _ => false

/-- Source: the members
`alignas(max(alignof(T), alignof(swift::Error)))
   char buffer[max(sizeof(T), sizeof(swift::Error))];`: the number of bytes of
the buffer, from `sizeof(T)` and `sizeof(swift::Error)`. -/
def bufferSize (sizeofT sizeofError : Nat) : Nat := swift.max sizeofT sizeofError

/-- Alignment of the buffer, from `alignof(T)` and `alignof(swift::Error)`. -/
def bufferAlign (alignofT alignofError : Nat) : Nat := swift.max alignofT alignofError

/-- The objects the constructors of `Expected<T>` produce: the default
constructor, the constructor from an error, the constructor from a value, and
the copy constructor applied to such an object. -/
inductive Constructed : Expected T E → Prop where
  | byDefault (defaultError : E) : Constructed (defaultConstruct defaultError)
  | fromError (error_val : E) : Constructed (ofError error_val)
  | fromValue (val : T) : Constructed (ofValue val)
  | byCopy (other c : Expected T E) :
      Constructed other → other.copyConstruct = .ok c → Constructed c

end Expected

/-- The `Expected<T>` objects of a program, by identity. -/
abbrev Frame (T E : Type) := List (Expected T E)

namespace Frame

variable {T E : Type}

/-- Copy construction of a new object from the object `other`. -/
def copyConstruct (other : Nat) (f : Frame T E) : Except Fault (Nat × Frame T E) :=
  match f[other]? with
  | none => .error Fault.undefined
  | some r => do
    let c ← r.copyConstruct
    pure (f.length, f ++ [c])

/-- The statement `this.value() = x`. -/
def assignValue (this : Nat) (x : T) (f : Frame T E) : Except Fault (Frame T E) :=
  match f[this]? with
  | none => .error Fault.undefined
  | some r => do
    let r1 ← r.assignValue x
    pure (f.set this r1)

/-- The statement `this.error() = e`. -/
def assignError (this : Nat) (e : E) (f : Frame T E) : Except Fault (Frame T E) :=
  match f[this]? with
  | none => .error Fault.undefined
  | some r => do
    let r1 ← r.assignError e
    pure (f.set this r1)

end Frame

end swift

/-! # Theorems -/

namespace swift

/-! ## Reading and writing handle objects -/

@[simp] theorem load_swift_retain (p : Ptr) (w : Runtime) (h : Nat) :
    (swift_retain p w).load h = w.load h := rfl

@[simp] theorem load_swift_release (p : Ptr) (w : Runtime) (h : Nat) :
    (swift_release p w).load h = w.load h := rfl

theorem load_eq_ok {w : Runtime} {h : Nat} {p : Ptr} :
    w.load h = .ok p ↔ w.objects[h]? = some (some p) := by
  unfold Runtime.load
  split
  · next q hq => simp [hq]
  · next hne =>
    constructor
    · intro hf; cases hf
    · intro hf; exact absurd hf (hne p)

theorem load_lt {w : Runtime} {h : Nat} {p : Ptr} (hl : w.load h = .ok p) :
    h < w.objects.length := by
  have := load_eq_ok.1 hl
  by_contra hge
  rw [List.getElem?_eq_none (by omega)] at this
  cases this

theorem load_getElem {w : Runtime} {h : Nat} {p : Ptr} (hl : w.load h = .ok p) :
    w.objects[h]? = some (some p) := load_eq_ok.1 hl

/-- Either a handle is live, and its pointer can be read, or reading it is undefined. -/
theorem load_cases (w : Runtime) (h : Nat) :
    (∃ p, w.load h = .ok p) ∨ w.load h = .error Fault.undefined := by
  unfold Runtime.load
  split
  · next q _ => exact Or.inl ⟨q, rfl⟩
  · exact Or.inr rfl

/-! ## Counting calls -/

theorem retainCalls_append (a b : List Call) (p : Ptr) :
    retainCalls (a ++ b) p = retainCalls a p + retainCalls b p := by
  simp [retainCalls, List.count_append]

theorem releaseCalls_append (a b : List Call) (p : Ptr) :
    releaseCalls (a ++ b) p = releaseCalls a p + releaseCalls b p := by
  simp [releaseCalls, List.count_append]

theorem creditsAt_append (ad : List Ptr) (a b : List Call) (p : Ptr) :
    creditsAt ad (a ++ b) p
      = creditsAt ad a p + (retainCalls b p : Int) - (releaseCalls b p : Int) := by
  simp only [creditsAt, retainCalls_append, releaseCalls_append]
  push_cast
  ring

@[simp] theorem retainCalls_nil (p : Ptr) : retainCalls [] p = 0 := rfl

@[simp] theorem releaseCalls_nil (p : Ptr) : releaseCalls [] p = 0 := rfl

@[simp] theorem retainCalls_retain (q p : Ptr) (l : List Call) :
    retainCalls (Call.retain q :: l) p = (if q = p then 1 else 0) + retainCalls l p := by
  by_cases h : q = p
  · subst h; simp [retainCalls, Nat.add_comm]
  · have : ¬ (Call.retain q = Call.retain p) := by intro e; cases e; exact h rfl
    simp [retainCalls, List.count_cons, h, this]

@[simp] theorem retainCalls_release (q p : Ptr) (l : List Call) :
    retainCalls (Call.release q :: l) p = retainCalls l p := by
  simp [retainCalls, List.count_cons]

@[simp] theorem releaseCalls_release (q p : Ptr) (l : List Call) :
    releaseCalls (Call.release q :: l) p = (if q = p then 1 else 0) + releaseCalls l p := by
  by_cases h : q = p
  · subst h; simp [releaseCalls, Nat.add_comm]
  · have : ¬ (Call.release q = Call.release p) := by intro e; cases e; exact h rfl
    simp [releaseCalls, List.count_cons, h, this]

@[simp] theorem releaseCalls_retain (q p : Ptr) (l : List Call) :
    releaseCalls (Call.retain q :: l) p = releaseCalls l p := by
  simp [releaseCalls, List.count_cons]

/-! ## What each member function does to the state -/

theorem construct_eq (ptr : Ptr) (w : Runtime) :
    RefCountedClass.construct ptr w
      = (w.objects.length,
          { objects := w.objects ++ [some ptr], adopted := w.adopted ++ [ptr],
            calls := w.calls }) := rfl

theorem copyConstruct_eq {w : Runtime} {other : Nat} {p : Ptr} (ho : w.load other = .ok p) :
    RefCountedClass.copyConstruct other w
      = .ok (w.objects.length,
          { objects := w.objects ++ [some p], adopted := w.adopted,
            calls := w.calls ++ [Call.retain p] }) := by
  have h1 := load_eq_ok.1 ho
  simp [RefCountedClass.copyConstruct, h1, Runtime.load, swift_retain, bind, Except.bind, pure,
    Except.pure]

theorem operatorAssign_eq {w : Runtime} {this other : Nat} {pt po : Ptr}
    (ht : w.load this = .ok pt) (ho : w.load other = .ok po) :
    RefCountedClass.operatorAssign this other w
      = .ok { objects := w.objects.set this (some po), adopted := w.adopted,
              calls := w.calls ++ [Call.retain po, Call.release pt] } := by
  have h1 := load_eq_ok.1 ht
  have h2 := load_eq_ok.1 ho
  simp [RefCountedClass.operatorAssign, h1, h2, Runtime.load, swift_retain, swift_release,
    Runtime.store, bind, Except.bind, pure, Except.pure]

theorem destroy_eq {w : Runtime} {this : Nat} {p : Ptr} (ht : w.load this = .ok p) :
    RefCountedClass.destroy this w
      = .ok { objects := w.objects.set this none, adopted := w.adopted,
              calls := w.calls ++ [Call.release p] } := by
  have h1 := load_eq_ok.1 ht
  simp [RefCountedClass.destroy, h1, Runtime.load, swift_release, bind, Except.bind, pure,
    Except.pure]

theorem isLive_iff_load {w : Runtime} {h : Nat} : w.isLive h = true ↔ ∃ p, w.load h = .ok p := by
  unfold Runtime.isLive Runtime.load
  split <;> simp

/-- An operation on handles returns exactly when the handles it uses are
within their lifetime; no other failure exists. -/
theorem handle_step_ok_iff (op : HandleOp) (w : Runtime) :
    (∃ w', op.step w = .ok w') ↔ op.defined w = true := by
  cases op with
  | construct ptr => simp [HandleOp.step, HandleOp.defined]
  | copyConstruct other =>
    simp only [HandleOp.step, HandleOp.defined, isLive_iff_load]
    rcases load_cases w other with ⟨q, hq⟩ | hq
    · simp [copyConstruct_eq hq, hq, Except.map]
    · simp [RefCountedClass.copyConstruct, hq, bind, Except.bind, Except.map]
  | operatorAssign a b =>
    simp only [HandleOp.step, HandleOp.defined, Bool.and_eq_true, isLive_iff_load]
    rcases load_cases w b with ⟨q, hq⟩ | hq
    · rcases load_cases w a with ⟨r, hr⟩ | hr
      · simp [operatorAssign_eq hr hq, hq, hr]
      · simp [RefCountedClass.operatorAssign, hq, hr, bind, Except.bind]
    · simp [RefCountedClass.operatorAssign, hq, bind, Except.bind]
  | destroy a =>
    simp only [HandleOp.step, HandleOp.defined, isLive_iff_load]
    rcases load_cases w a with ⟨q, hq⟩ | hq
    · simp [destroy_eq hq, hq]
    · simp [RefCountedClass.destroy, hq, bind, Except.bind]

/-- C1. Copy assignment between two handles on one object (the handle itself
included) whose credit count is at least 1 returns, calls retain and then
release on the object, keeps the credit count at 1 or more after every call it
makes, and leaves the credit count as it was. -/
theorem operatorAssign_same_object_credit (w : Runtime) (h o : Nat) (p : Ptr)
    (hh : w.load h = .ok p) (ho : w.load o = .ok p) (hc : 1 ≤ w.credits p) :
    ∃ w', RefCountedClass.operatorAssign h o w = .ok w' ∧
      w'.calls = w.calls ++ [Call.retain p, Call.release p] ∧
      (∀ tr, w.calls <+: tr → tr <+: w'.calls → 1 ≤ creditsAt w'.adopted tr p) ∧
      w'.credits p = w.credits p ∧
      w'.load h = .ok p := by
  refine ⟨_, operatorAssign_eq hh ho, rfl, ?_, ?_, ?_⟩
  · rintro tr ⟨t, rfl⟩ ht
    have ht2 : t <+: [Call.retain p, Call.release p] := (List.prefix_append_right_inj _).1 ht
    have hc2 : 1 ≤ creditsAt w.adopted w.calls p := hc
    rw [creditsAt_append]
    match t, ht2 with
    | [], _ => simpa using hc2
    | [a], h1 =>
      obtain ⟨s, hs⟩ := h1
      simp at hs
      obtain ⟨rfl, -⟩ := hs
      simp
      omega
    | [a, b], h1 =>
      obtain ⟨s, hs⟩ := h1
      simp at hs
      obtain ⟨rfl, rfl, -⟩ := hs
      simp
      omega
    | a :: b :: c :: r, h1 =>
      have := h1.length_le
      simp at this
  · show creditsAt _ _ p = creditsAt _ _ p
    rw [creditsAt_append]
    simp
  · apply load_eq_ok.2
    have hlt := load_lt hh
    simp [List.getElem?_set, hlt]

theorem operatorAssign_same_object_credit_witness :
    ∃ w', RefCountedClass.operatorAssign 0 1
        { objects := [some 7, some 7], adopted := [7], calls := [Call.retain 7] } = .ok w' ∧
      w'.calls = [Call.retain 7] ++ [Call.retain 7, Call.release 7] ∧
      (∀ tr, [Call.retain 7] <+: tr → tr <+: w'.calls → 1 ≤ creditsAt w'.adopted tr 7) ∧
      w'.credits 7 = 2 ∧
      w'.load 0 = .ok 7 :=
  operatorAssign_same_object_credit
    { objects := [some 7, some 7], adopted := [7], calls := [Call.retain 7] } 0 1 7
    (by decide) (by decide) (by decide)

/-! ## The credit invariant -/

/-- Overwriting one entry of a table changes the number of occurrences of `b`
by the entry that goes and the entry that comes. -/
theorem count_set_int (l : List (Option Ptr)) (i : Nat) (a b x : Option Ptr)
    (hx : l[i]? = some x) :
    ((l.set i a).count b : Int)
      = (l.count b : Int) - (if x = b then 1 else 0) + (if a = b then 1 else 0) := by
  induction l generalizing i with
  | nil => simp at hx
  | cons y l ih =>
    cases i with
    | zero =>
      simp at hx
      subst hx
      simp only [List.set_cons_zero, List.count_cons, beq_iff_eq]
      split <;> split <;> push_cast <;> ring
    | succ i =>
      simp at hx
      simp only [List.set_cons_succ, List.count_cons]
      have := ih i hx
      push_cast
      rw [this]
      ring

theorem balanced_init : Runtime.init.Balanced := by
  intro p
  simp [Runtime.init, Runtime.credits, Runtime.liveHandles, creditsAt]

theorem balanced_construct (w : Runtime) (ptr : Ptr) (hw : w.Balanced) :
    (RefCountedClass.construct ptr w).2.Balanced := by
  intro p
  have := hw p
  simp only [Runtime.credits, Runtime.liveHandles, creditsAt, construct_eq,
    List.count_append] at this ⊢
  by_cases h : ptr = p
  · subst h; simp; omega
  · have h2 : ¬ (p = ptr) := fun e => h e.symm
    simp [List.count_cons, h, h2]; omega

theorem balanced_copyConstruct {w : Runtime} {other : Nat} {r : Nat × Runtime} (hw : w.Balanced)
    (hr : RefCountedClass.copyConstruct other w = .ok r) : r.2.Balanced := by
  rcases load_cases w other with ⟨q, hq⟩ | hq
  · rw [copyConstruct_eq hq] at hr
    cases hr
    intro p
    have := hw p
    simp only [Runtime.credits, Runtime.liveHandles, creditsAt_append, List.count_append] at this ⊢
    by_cases h : q = p
    · subst h; simp; omega
    · have h2 : ¬ (p = q) := fun e => h e.symm
      simp [List.count_cons, h, h2]; omega
  · simp [RefCountedClass.copyConstruct, hq, bind, Except.bind] at hr

theorem balanced_operatorAssign {w w' : Runtime} {this other : Nat} (hw : w.Balanced)
    (hr : RefCountedClass.operatorAssign this other w = .ok w') : w'.Balanced := by
  rcases load_cases w other with ⟨po, hpo⟩ | hpo
  · rcases load_cases w this with ⟨pt, hpt⟩ | hpt
    · rw [operatorAssign_eq hpt hpo] at hr
      cases hr
      intro p
      have := hw p
      simp only [Runtime.credits, Runtime.liveHandles, creditsAt_append] at this ⊢
      rw [count_set_int _ _ _ _ _ (load_getElem hpt)]
      simp only [retainCalls_retain, retainCalls_release, retainCalls_nil, releaseCalls_retain,
        releaseCalls_release, releaseCalls_nil, Option.some.injEq]
      split <;> split <;> push_cast <;> omega
    · simp [RefCountedClass.operatorAssign, hpo, hpt, bind, Except.bind] at hr
  · simp [RefCountedClass.operatorAssign, hpo, bind, Except.bind] at hr

theorem balanced_destroy {w w' : Runtime} {this : Nat} (hw : w.Balanced)
    (hr : RefCountedClass.destroy this w = .ok w') : w'.Balanced := by
  rcases load_cases w this with ⟨pt, hpt⟩ | hpt
  · rw [destroy_eq hpt] at hr
    cases hr
    intro p
    have := hw p
    simp only [Runtime.credits, Runtime.liveHandles, creditsAt_append] at this ⊢
    rw [count_set_int _ _ _ _ _ (load_getElem hpt)]
    simp only [retainCalls_release, retainCalls_nil, releaseCalls_release, releaseCalls_nil,
      Option.some.injEq]
    split <;> simp <;> omega
  · simp [RefCountedClass.destroy, hpt, bind, Except.bind] at hr

theorem balanced_step {op : HandleOp} {w w' : Runtime} (hw : w.Balanced)
    (hr : op.step w = .ok w') : w'.Balanced := by
  cases op with
  | construct ptr =>
    simp only [HandleOp.step, Except.ok.injEq] at hr
    subst hr
    exact balanced_construct w ptr hw
  | copyConstruct other =>
    simp only [HandleOp.step] at hr
    cases hc : RefCountedClass.copyConstruct other w with
    | error e => rw [hc] at hr; cases hr
    | ok r =>
      rw [hc] at hr
      simp only [Except.map, Except.ok.injEq] at hr
      subst hr
      exact balanced_copyConstruct hw hc
  | operatorAssign this other => exact balanced_operatorAssign hw hr
  | destroy this => exact balanced_destroy hw hr

theorem balanced_run (ops : List HandleOp) {w w' : Runtime} (hw : w.Balanced)
    (hr : runHandleOps ops w = .ok w') : w'.Balanced := by
  induction ops generalizing w with
  | nil =>
    simp only [runHandleOps, Except.ok.injEq] at hr
    subst hr
    exact hw
  | cons op ops ih =>
    simp only [runHandleOps, bind, Except.bind] at hr
    cases hs : op.step w with
    | error e => rw [hs] at hr; cases hr
    | ok w1 =>
      rw [hs] at hr
      exact ih (balanced_step hw hs) hr

/-- C2. Starting with no handle at all, after every sequence of constructions
(each adopting one credit), copy constructions, copy assignments and
destructions that runs to its end, the credits held against every object
(adopted credits plus retains minus releases) are as many as the live handles
whose pointer is that object. -/
theorem credits_eq_liveHandles (ops : List HandleOp) (w : Runtime)
    (hr : runHandleOps ops Runtime.init = .ok w) (p : Ptr) :
    w.credits p = (w.liveHandles p : Int) :=
  balanced_run ops balanced_init hr p

theorem credits_eq_liveHandles_witness :
    ∃ w, runHandleOps
        [.construct 7, .construct 9, .copyConstruct 0, .operatorAssign 1 2, .destroy 0]
        Runtime.init = .ok w ∧
      w.objects = [none, some 7, some 7] ∧
      w.credits 9 = (w.liveHandles 9 : Int) :=
  ⟨_, rfl, rfl, credits_eq_liveHandles
    [.construct 7, .construct 9, .copyConstruct 0, .operatorAssign 1 2, .destroy 0] _ rfl 9⟩

/-! ## Calls made by each operation -/

theorem familyOf_construct (P : Ptr) :
    (RefCountedClass.construct P Runtime.init).2.FamilyOf P := by
  refine ⟨rfl, ?_⟩
  intro o ho
  simp [construct_eq, Runtime.init] at ho
  exact Or.inr ho

theorem familyOf_load {w : Runtime} {P q : Ptr} {h : Nat} (hw : w.FamilyOf P)
    (hl : w.load h = .ok q) : q = P := by
  have hmem : some q ∈ w.objects := List.getElem?_mem (load_getElem hl)
  rcases hw.2 _ hmem with h1 | h1
  · cases h1
  · cases h1; rfl

theorem familyOf_step {op : HandleOp} {w w' : Runtime} {P : Ptr} (hw : w.FamilyOf P)
    (hop : op.isCopyConstruct = true ∨ op.isDestroy = true) (hr : op.step w = .ok w') :
    w'.FamilyOf P ∧
      retainCalls w'.calls P = retainCalls w.calls P + (if op.isCopyConstruct then 1 else 0) := by
  cases op with
  | construct ptr => simp [HandleOp.isCopyConstruct, HandleOp.isDestroy] at hop
  | operatorAssign a b => simp [HandleOp.isCopyConstruct, HandleOp.isDestroy] at hop
  | copyConstruct other =>
    rcases load_cases w other with ⟨q, hq⟩ | hq
    · have hqP := familyOf_load hw hq
      subst hqP
      simp only [HandleOp.step, copyConstruct_eq hq, Except.map, Except.ok.injEq] at hr
      subst hr
      refine ⟨⟨hw.1, ?_⟩, ?_⟩
      · intro o ho
        simp only [List.mem_append, List.mem_singleton] at ho
        rcases ho with ho | ho
        · exact hw.2 o ho
        · exact Or.inr ho
      · simp [retainCalls_append, HandleOp.isCopyConstruct]
    · simp [HandleOp.step, RefCountedClass.copyConstruct, hq, bind, Except.bind, Except.map] at hr
  | destroy this =>
    rcases load_cases w this with ⟨q, hq⟩ | hq
    · simp only [HandleOp.step, destroy_eq hq, Except.ok.injEq] at hr
      subst hr
      refine ⟨⟨hw.1, ?_⟩, ?_⟩
      · intro o ho
        rcases List.mem_or_eq_of_mem_set ho with ho | ho
        · exact hw.2 o ho
        · exact Or.inl ho
      · simp [retainCalls_append, HandleOp.isCopyConstruct]
    · simp [HandleOp.step, RefCountedClass.destroy, hq, bind, Except.bind] at hr

theorem familyOf_run (ops : List HandleOp) {w w' : Runtime} {P : Ptr} (hw : w.FamilyOf P)
    (hops : ∀ op ∈ ops, op.isCopyConstruct = true ∨ op.isDestroy = true)
    (hr : runHandleOps ops w = .ok w') :
    w'.FamilyOf P ∧
      retainCalls w'.calls P = retainCalls w.calls P + ops.countP HandleOp.isCopyConstruct := by
  induction ops generalizing w with
  | nil =>
    simp only [runHandleOps, Except.ok.injEq] at hr
    subst hr
    exact ⟨hw, by simp⟩
  | cons op ops ih =>
    simp only [runHandleOps, bind, Except.bind] at hr
    cases hs : op.step w with
    | error e => rw [hs] at hr; cases hr
    | ok w1 =>
      rw [hs] at hr
      have h1 := familyOf_step hw (hops op (List.mem_cons_self _ _)) hs
      have h2 := ih h1.1 (fun o ho => hops o (List.mem_cons_of_mem _ ho)) hr
      refine ⟨h2.1, ?_⟩
      rw [h2.2, h1.2, List.countP_cons]
      split <;> omega

/-- C10, refuted as stated. A handle is constructed on pointer 7 and copied
once, then both handles are destroyed: one retain call is observed on 7 but
two release calls. -/
theorem retains_eq_releases_counterexample :
    runHandleOps [.copyConstruct 0, .destroy 0, .destroy 1]
        (RefCountedClass.construct 7 Runtime.init).2
      = .ok { objects := [none, none], adopted := [7],
              calls := [.retain 7, .release 7, .release 7] } ∧
    retainCalls [.retain 7, .release 7, .release 7] 7 = 1 ∧
    releaseCalls [.retain 7, .release 7, .release 7] 7 = 2 ∧
    retainCalls [.retain 7, .release 7, .release 7] 7
      ≠ releaseCalls [.retain 7, .release 7, .release 7] 7 := by
  decide

/-- C10, amended. For a handle constructed on `P` and every sequence of copy
constructions and destructions that runs to its end and leaves no handle
live, the release calls observed on `P` are one more than the retain calls
observed on `P` (the one more gives back the credit adopted at construction),
and the retain calls are as many as the copies made. -/
theorem releases_eq_retains_add_one (P : Ptr) (ops : List HandleOp) (w : Runtime)
    (hops : ∀ op ∈ ops, op.isCopyConstruct = true ∨ op.isDestroy = true)
    (hr : runHandleOps ops (RefCountedClass.construct P Runtime.init).2 = .ok w)
    (hdead : ∀ o ∈ w.objects, o = none) :
    releaseCalls w.calls P = retainCalls w.calls P + 1 ∧
      retainCalls w.calls P = ops.countP HandleOp.isCopyConstruct := by
  have hfam := familyOf_run ops (familyOf_construct P) hops hr
  have hbal := balanced_run ops (balanced_construct _ P balanced_init) hr P
  have hlive : w.liveHandles P = 0 := by
    unfold Runtime.liveHandles
    apply List.count_eq_zero.2
    intro hmem
    cases hdead _ hmem
  refine ⟨?_, ?_⟩
  · simp only [Runtime.credits, creditsAt, hfam.1.1, hlive] at hbal
    simp at hbal
    omega
  · rw [hfam.2]
    simp [construct_eq, Runtime.init]

theorem releases_eq_retains_add_one_witness :
    releaseCalls [.retain 7, .release 7, .retain 7, .release 7, .release 7] 7
        = retainCalls [.retain 7, .release 7, .retain 7, .release 7, .release 7] 7 + 1 ∧
      retainCalls [.retain 7, .release 7, .retain 7, .release 7, .release 7] 7
        = [HandleOp.copyConstruct 0, .destroy 0, .copyConstruct 1, .destroy 2, .destroy 1].countP
            HandleOp.isCopyConstruct :=
  releases_eq_retains_add_one 7
    [.copyConstruct 0, .destroy 0, .copyConstruct 1, .destroy 2, .destroy 1]
    { objects := [none, none, none], adopted := [7],
      calls := [.retain 7, .release 7, .retain 7, .release 7, .release 7] }
    (by decide) (by decide) (by decide)

/-! ## Reading and writing containers -/

theorem heap_load_eq_ok {m : Heap} {c : Nat} {p : Ptr} :
    m.load c = .ok p ↔ m.objects[c]? = some (some p) := by
  unfold Heap.load
  split
  · next q hq => simp [hq]
  · next hne =>
    constructor
    · intro hf; cases hf
    · intro hf; exact absurd hf (hne p)

theorem heap_load_lt {m : Heap} {c : Nat} {p : Ptr} (hl : m.load c = .ok p) :
    c < m.objects.length := by
  have := heap_load_eq_ok.1 hl
  by_contra hge
  rw [List.getElem?_eq_none (by omega)] at this
  cases this

theorem heap_load_cases (m : Heap) (c : Nat) :
    (∃ p, m.load c = .ok p) ∨ m.load c = .error Fault.undefined := by
  unfold Heap.load
  split
  · next q _ => exact Or.inl ⟨q, rfl⟩
  · exact Or.inr rfl

theorem storage_moveConstruct_eq {m : Heap} {other : Nat} {p : Ptr}
    (ho : m.load other = .ok p) :
    OpaqueStorage.moveConstruct other m
      = .ok (m.objects.length,
          { objects := (m.objects ++ [some p]).set other (some nullptr),
            allocated := m.allocated, freed := m.freed }) := by
  simp [OpaqueStorage.moveConstruct, ho, Heap.store, bind, Except.bind, pure, Except.pure]

theorem storage_operatorAssign_eq {m : Heap} {this other : Nat} {pt po : Ptr}
    (ht : m.load this = .ok pt) (ho : m.load other = .ok po) :
    OpaqueStorage.operatorAssign this other m
      = .ok { objects := (m.objects.set this (some po)).set other (some pt),
              allocated := m.allocated, freed := m.freed } := by
  simp [OpaqueStorage.operatorAssign, ht, ho, Heap.store, bind, Except.bind, pure, Except.pure]

theorem storage_destroy_eq {m : Heap} {this : Nat} {p : Ptr} (ht : m.load this = .ok p) :
    OpaqueStorage.destroy this m
      = .ok { objects := m.objects.set this none, allocated := m.allocated,
              freed := if p ≠ nullptr then m.freed ++ [p] else m.freed } := by
  by_cases hp : p = nullptr
  · simp [OpaqueStorage.destroy, ht, hp, bind, Except.bind, pure, Except.pure]
  · simp [OpaqueStorage.destroy, ht, hp, opaqueFree, bind, Except.bind, pure, Except.pure]

theorem heap_isLive_iff_load {m : Heap} {c : Nat} :
    m.isLive c = true ↔ ∃ p, m.load c = .ok p := by
  unfold Heap.isLive Heap.load
  split <;> simp

/-- An operation on containers returns exactly when the containers it uses
are within their lifetime; no other failure exists. -/
theorem storage_step_ok_iff (op : StorageOp) (m : Heap) :
    (∃ m', op.step m = .ok m') ↔ op.defined m = true := by
  cases op with
  | defaultConstruct => simp [StorageOp.step, StorageOp.defined]
  | sizedConstruct pf size alignment => simp [StorageOp.step, StorageOp.defined]
  | moveConstruct other =>
    simp only [StorageOp.step, StorageOp.defined, heap_isLive_iff_load]
    rcases heap_load_cases m other with ⟨q, hq⟩ | hq
    · simp [storage_moveConstruct_eq hq, hq, Except.map]
    · simp [OpaqueStorage.moveConstruct, hq, bind, Except.bind, Except.map]
  | operatorAssign a b =>
    simp only [StorageOp.step, StorageOp.defined, Bool.and_eq_true, heap_isLive_iff_load]
    rcases heap_load_cases m a with ⟨r, hr⟩ | hr
    · rcases heap_load_cases m b with ⟨q, hq⟩ | hq
      · simp [storage_operatorAssign_eq hr hq, hq, hr]
      · simp [OpaqueStorage.operatorAssign, hq, hr, bind, Except.bind]
    · simp [OpaqueStorage.operatorAssign, hr, bind, Except.bind]
  | destroy a =>
    simp only [StorageOp.step, StorageOp.defined, heap_isLive_iff_load]
    rcases heap_load_cases m a with ⟨q, hq⟩ | hq
    · simp [storage_destroy_eq hq, hq]
    · simp [OpaqueStorage.destroy, hq, bind, Except.bind]

/-! ## Ownership transfer -/

/-- C6, refuted as stated. Container 0 holds the block at 16 and container 1
the block at 32. After the move assignment of container 1 into container 0
the source, container 1, is not absent: it holds 16, and destroying it frees
the block at 16. -/
theorem transfer_source_absent_counterexample :
    OpaqueStorage.operatorAssign 0 1
        { objects := [some 16, some 32], allocated := [16, 32], freed := [] }
      = .ok { objects := [some 32, some 16], allocated := [16, 32], freed := [] } ∧
    Heap.load { objects := [some 32, some 16], allocated := [16, 32], freed := [] } 1
      ≠ .ok nullptr ∧
    OpaqueStorage.destroy 1
        { objects := [some 32, some 16], allocated := [16, 32], freed := [] }
      = .ok { objects := [some 32, none], allocated := [16, 32], freed := [16] } := by
  decide

/-- C6, amended. Move construction from `src` gives a new container holding
the pointer `src` held, leaves `src` absent, and destroying `src` afterwards
frees nothing. Move assignment of `src` into `dst` leaves `dst` holding the
pointer `src` held and `src` holding the pointer `dst` held; `src` is absent
afterwards exactly when `dst` was absent before, and then destroying `src`
frees nothing. -/
theorem transfer_moves_pointer (m : Heap) (src dst : Nat) (ps pd : Ptr)
    (hs : m.load src = .ok ps) (hd : m.load dst = .ok pd) :
    (∃ c m', OpaqueStorage.moveConstruct src m = .ok (c, m') ∧
      m'.load c = .ok ps ∧ m'.load src = .ok nullptr ∧
      ∃ m'', OpaqueStorage.destroy src m' = .ok m'' ∧ m''.freed = m.freed) ∧
    (∃ m', OpaqueStorage.operatorAssign dst src m = .ok m' ∧
      m'.load dst = .ok ps ∧ m'.load src = .ok pd ∧
      (m'.load src = .ok nullptr ↔ pd = nullptr) ∧
      (pd = nullptr → ∃ m'', OpaqueStorage.destroy src m' = .ok m'' ∧ m''.freed = m.freed)) := by
  have hslt := heap_load_lt hs
  have hdlt := heap_load_lt hd
  have hsget := heap_load_eq_ok.1 hs
  have hdget := heap_load_eq_ok.1 hd
  constructor
  · have hsrc : Heap.load
        { objects := (m.objects ++ [some ps]).set src (some nullptr),
          allocated := m.allocated, freed := m.freed } src = .ok nullptr := by
      apply heap_load_eq_ok.2
      simp [List.getElem?_set]
      omega
    refine ⟨_, _, storage_moveConstruct_eq hs, ?_, hsrc, ?_⟩
    · apply heap_load_eq_ok.2
      have hne : src ≠ m.objects.length := by omega
      simp [List.getElem?_set, hne]
    · exact ⟨_, storage_destroy_eq hsrc, by simp⟩
  · have hsrc : Heap.load
        { objects := (m.objects.set dst (some ps)).set src (some pd),
          allocated := m.allocated, freed := m.freed } src = .ok pd := by
      apply heap_load_eq_ok.2
      simp [List.getElem?_set, hslt]
    refine ⟨_, storage_operatorAssign_eq hd hs, ?_, hsrc, ?_, ?_⟩
    · apply heap_load_eq_ok.2
      by_cases he : src = dst
      · subst he
        rw [hsget] at hdget
        cases hdget
        simp [List.getElem?_set, hslt]
      · simp [List.getElem?_set, he, hdlt]
    · rw [hsrc]
      constructor
      · intro h; cases h; rfl
      · intro h; rw [h]
    · intro hnull
      subst hnull
      exact ⟨_, storage_destroy_eq hsrc, by simp⟩

theorem transfer_moves_pointer_witness :
    (∃ c m', OpaqueStorage.moveConstruct 1
        { objects := [some 0, some 32], allocated := [32], freed := [] } = .ok (c, m') ∧
      m'.load c = .ok 32 ∧ m'.load 1 = .ok nullptr ∧
      ∃ m'', OpaqueStorage.destroy 1 m' = .ok m'' ∧ m''.freed = []) ∧
    (∃ m', OpaqueStorage.operatorAssign 0 1
        { objects := [some 0, some 32], allocated := [32], freed := [] } = .ok m' ∧
      m'.load 0 = .ok 32 ∧ m'.load 1 = .ok 0 ∧
      (m'.load 1 = .ok nullptr ↔ (0 : Ptr) = nullptr) ∧
      ((0 : Ptr) = nullptr → ∃ m'', OpaqueStorage.destroy 1 m' = .ok m'' ∧ m''.freed = [])) :=
  transfer_moves_pointer { objects := [some 0, some 32], allocated := [32], freed := [] } 1 0 32 0
    (by decide) (by decide)

/-- C7. Move assignment of container `b` into container `a` swaps: afterwards
`a` holds the pointer `b` held and `b` the pointer `a` held, every other
container is as before, and the assignment itself frees nothing. The block `a`
held is freed when `b` is destroyed; destroying `a` instead frees the block
`b` held; and when `a` was the only holder of its block, `b` is the only
holder afterwards. -/
theorem operatorAssign_swaps (m : Heap) (a b : Nat) (pa pb : Ptr)
    (ha : m.load a = .ok pa) (hb : m.load b = .ok pb) :
    ∃ m', OpaqueStorage.operatorAssign a b m = .ok m' ∧
      m'.load a = .ok pb ∧ m'.load b = .ok pa ∧
      (∀ c, c ≠ a → c ≠ b → m'.load c = m.load c) ∧
      m'.freed = m.freed ∧ m'.allocated = m.allocated ∧
      (∃ m'', OpaqueStorage.destroy b m' = .ok m'' ∧
        m''.freed = if pa ≠ nullptr then m.freed ++ [pa] else m.freed) ∧
      (∃ m'', OpaqueStorage.destroy a m' = .ok m'' ∧
        m''.freed = if pb ≠ nullptr then m.freed ++ [pb] else m.freed) ∧
      ((∀ c, m.load c = .ok pa → c = a) → ∀ c, m'.load c = .ok pa → c = b) := by
  have halt := heap_load_lt ha
  have hblt := heap_load_lt hb
  have haget := heap_load_eq_ok.1 ha
  have hbget := heap_load_eq_ok.1 hb
  have hb' : Heap.load
      { objects := (m.objects.set a (some pb)).set b (some pa),
        allocated := m.allocated, freed := m.freed } b = .ok pa := by
    apply heap_load_eq_ok.2
    simp [List.getElem?_set, hblt]
  have ha' : Heap.load
      { objects := (m.objects.set a (some pb)).set b (some pa),
        allocated := m.allocated, freed := m.freed } a = .ok pb := by
    apply heap_load_eq_ok.2
    by_cases he : b = a
    · subst he
      rw [hbget] at haget
      cases haget
      simp [List.getElem?_set, hblt]
    · simp [List.getElem?_set, he, halt]
  have hframe : ∀ c, c ≠ a → c ≠ b →
      Heap.load
        { objects := (m.objects.set a (some pb)).set b (some pa),
          allocated := m.allocated, freed := m.freed } c = m.load c := by
    intro c hca hcb
    have h1 : ¬ (a = c) := fun e => hca e.symm
    have h2 : ¬ (b = c) := fun e => hcb e.symm
    simp [Heap.load, List.getElem?_set, h1, h2]
  refine ⟨_, storage_operatorAssign_eq ha hb, ha', hb', hframe, rfl, rfl,
    ⟨_, storage_destroy_eq hb', rfl⟩, ⟨_, storage_destroy_eq ha', rfl⟩, ?_⟩
  intro huniq c hc
  by_contra hcb
  by_cases hca : c = a
  · subst hca
    rw [ha'] at hc
    cases hc
    exact hcb (huniq b hb).symm
  · rw [hframe c hca hcb] at hc
    exact hca (huniq c hc)

theorem operatorAssign_swaps_witness :
    ∃ m', OpaqueStorage.operatorAssign 0 1
        { objects := [some 16, some 32], allocated := [16, 32], freed := [] } = .ok m' ∧
      m'.load 0 = .ok 32 ∧ m'.load 1 = .ok 16 ∧
      (∀ c, c ≠ 0 → c ≠ 1 → m'.load c
        = Heap.load { objects := [some 16, some 32], allocated := [16, 32], freed := [] } c) ∧
      m'.freed = [] ∧ m'.allocated = [16, 32] ∧
      (∃ m'', OpaqueStorage.destroy 1 m' = .ok m'' ∧
        m''.freed = if (16 : Ptr) ≠ nullptr then [] ++ [16] else []) ∧
      (∃ m'', OpaqueStorage.destroy 0 m' = .ok m'' ∧
        m''.freed = if (32 : Ptr) ≠ nullptr then [] ++ [32] else []) ∧
      ((∀ c, Heap.load { objects := [some 16, some 32], allocated := [16, 32], freed := [] } c
          = .ok 16 → c = 0) → ∀ c, m'.load c = .ok 16 → c = 1) :=
  operatorAssign_swaps { objects := [some 16, some 32], allocated := [16, 32], freed := [] }
    0 1 16 32 (by decide) (by decide)

/-! ## The single-owner invariant -/

theorem singleOwner_init : Heap.init.SingleOwner := by
  refine ⟨rfl, rfl, ?_⟩
  intro p _
  simp [Heap.init, Heap.holders]

theorem count_append_singleton (l : List (Option Ptr)) (a b : Option Ptr) :
    ((l ++ [a]).count b : Int) = (l.count b : Int) + (if a = b then 1 else 0) := by
  rw [List.count_append]
  by_cases h : a = b
  · subst h; simp
  · have h2 : ¬ (b = a) := fun e => h e.symm
    simp [List.count_cons, h, h2]

theorem count_ptr_append_singleton (l : List Ptr) (a b : Ptr) :
    ((l ++ [a]).count b : Int) = (l.count b : Int) + (if a = b then 1 else 0) := by
  rw [List.count_append]
  by_cases h : a = b
  · subst h; simp
  · have h2 : ¬ (b = a) := fun e => h e.symm
    simp [List.count_cons, h, h2]

theorem singleOwner_defaultConstruct {m : Heap} (hm : m.SingleOwner) :
    (OpaqueStorage.defaultConstruct m).2.SingleOwner := by
  obtain ⟨h1, h2, h3⟩ := hm
  refine ⟨h1, h2, ?_⟩
  intro p hp
  have hinv := h3 p hp
  have hne : ¬ (nullptr = p) := fun e => hp e.symm
  have hc := count_append_singleton m.objects (some nullptr) (some p)
  simp only [Option.some.injEq, hne, if_false] at hc
  simp only [OpaqueStorage.defaultConstruct, Heap.holders] at hinv ⊢
  omega

theorem singleOwner_sizedConstruct {m : Heap} (pf : Platform) (size alignment : Nat)
    (hm : m.SingleOwner)
    (hsound : (StorageOp.sizedConstruct pf size alignment).allocatorSound m = true) :
    (OpaqueStorage.sizedConstruct pf size alignment m).2.SingleOwner := by
  obtain ⟨h1, h2, h3⟩ := hm
  simp only [StorageOp.allocatorSound, Bool.or_eq_true, decide_eq_true_eq, Bool.not_eq_true',
    Heap.isAllocated, decide_eq_false_iff_not, Nat.not_lt] at hsound
  simp only [OpaqueStorage.sizedConstruct]
  generalize opaqueAlloc pf size alignment = r at hsound ⊢
  by_cases hr : r = nullptr
  · subst hr
    simp only [if_true]
    exact singleOwner_defaultConstruct ⟨h1, h2, h3⟩
  · have hfresh : m.allocated.count r ≤ m.freed.count r := by
      rcases hsound with h | h
      · exact absurd h hr
      · exact h
    have hrn : ¬ (r = nullptr) := hr
    simp only [hr, if_false]
    refine ⟨?_, h2, ?_⟩
    · have hcnt := count_ptr_append_singleton m.allocated r nullptr
      simp only [hrn, if_false] at hcnt
      dsimp only
      omega
    · intro p hp
      have hinv := h3 p hp
      have hc := count_append_singleton m.objects (some r) (some p)
      have ha := count_ptr_append_singleton m.allocated r p
      simp only [Heap.holders, Option.some.injEq] at hinv hc ⊢
      by_cases hrp : r = p
      · subst hrp
        simp only [if_true] at hc ha
        omega
      · simp only [hrp, if_false] at hc ha
        omega

theorem singleOwner_moveConstruct {m : Heap} {other : Nat} {r : Nat × Heap}
    (hm : m.SingleOwner) (hr : OpaqueStorage.moveConstruct other m = .ok r) :
    r.2.SingleOwner := by
  rcases heap_load_cases m other with ⟨q, hq⟩ | hq
  · rw [storage_moveConstruct_eq hq] at hr
    cases hr
    obtain ⟨h1, h2, h3⟩ := hm
    refine ⟨h1, h2, ?_⟩
    intro p hp
    have hinv := h3 p hp
    have hne : ¬ (nullptr = p) := fun e => hp e.symm
    have hlt := heap_load_lt hq
    have hget : (m.objects ++ [some q])[other]? = some (some q) := by
      rw [List.getElem?_append_left hlt]
      exact heap_load_eq_ok.1 hq
    have hs := count_set_int (m.objects ++ [some q]) other (some nullptr) (some p) (some q) hget
    have hc := count_append_singleton m.objects (some q) (some p)
    simp only [Heap.holders, Option.some.injEq, hne, if_false] at hinv hs hc ⊢
    clear hlt hget
    by_cases hqp : q = p
    · simp only [if_pos hqp] at hs hc
      omega
    · simp only [if_neg hqp] at hs hc
      omega
  · simp [OpaqueStorage.moveConstruct, hq, bind, Except.bind] at hr

theorem singleOwner_operatorAssign {m m' : Heap} {a b : Nat} (hm : m.SingleOwner)
    (hr : OpaqueStorage.operatorAssign a b m = .ok m') : m'.SingleOwner := by
  rcases heap_load_cases m a with ⟨pt, hpt⟩ | hpt
  · rcases heap_load_cases m b with ⟨po, hpo⟩ | hpo
    · rw [storage_operatorAssign_eq hpt hpo] at hr
      cases hr
      obtain ⟨h1, h2, h3⟩ := hm
      refine ⟨h1, h2, ?_⟩
      intro p hp
      have hinv := h3 p hp
      have hlt := heap_load_lt hpo
      have hget1 := heap_load_eq_ok.1 hpt
      have hget2 : (m.objects.set a (some po))[b]? = some (some po) := by
        by_cases he : a = b
        · subst he; simp [List.getElem?_set, hlt]
        · simp [List.getElem?_set, he, heap_load_eq_ok.1 hpo]
      have hs1 := count_set_int m.objects a (some po) (some p) (some pt) hget1
      have hs2 := count_set_int (m.objects.set a (some po)) b (some pt) (some p) (some po)
        hget2
      simp only [Heap.holders, Option.some.injEq] at hinv hs1 hs2 ⊢
      clear hlt hget1 hget2
      by_cases hx : pt = p
      · by_cases hy : po = p
        · simp only [if_pos hx, if_pos hy] at hs1 hs2
          omega
        · simp only [if_pos hx, if_neg hy] at hs1 hs2
          omega
      · by_cases hy : po = p
        · simp only [if_neg hx, if_pos hy] at hs1 hs2
          omega
        · simp only [if_neg hx, if_neg hy] at hs1 hs2
          omega
    · simp [OpaqueStorage.operatorAssign, hpt, hpo, bind, Except.bind] at hr
  · simp [OpaqueStorage.operatorAssign, hpt, bind, Except.bind] at hr

theorem singleOwner_destroy {m m' : Heap} {c : Nat} (hm : m.SingleOwner)
    (hr : OpaqueStorage.destroy c m = .ok m') : m'.SingleOwner := by
  rcases heap_load_cases m c with ⟨pt, hpt⟩ | hpt
  · rw [storage_destroy_eq hpt] at hr
    cases hr
    obtain ⟨h1, h2, h3⟩ := hm
    have hget := heap_load_eq_ok.1 hpt
    by_cases hnull : pt = nullptr
    · subst hnull
      simp only [ne_eq, not_true_eq_false, if_false]
      refine ⟨h1, h2, ?_⟩
      intro p hp
      have hinv := h3 p hp
      have hne : ¬ (nullptr = p) := fun e => hp e.symm
      have hs := count_set_int m.objects c none (some p) (some nullptr) hget
      simp only [Heap.holders, Option.some.injEq, hne, if_false, reduceCtorEq] at hinv hs ⊢
      omega
    · simp only [ne_eq, hnull, not_false_eq_true, if_true]
      refine ⟨h1, ?_, ?_⟩
      · have hcnt := count_ptr_append_singleton m.freed pt nullptr
        simp only [hnull, if_false] at hcnt
        dsimp only
        omega
      · intro p hp
        have hinv := h3 p hp
        have hs := count_set_int m.objects c none (some p) (some pt) hget
        have hf := count_ptr_append_singleton m.freed pt p
        simp only [Heap.holders, Option.some.injEq, reduceCtorEq, if_false] at hinv hs ⊢
        by_cases hx : pt = p
        · simp only [if_pos hx] at hs hf
          omega
        · simp only [if_neg hx] at hs hf
          omega
  · simp [OpaqueStorage.destroy, hpt, bind, Except.bind] at hr

theorem singleOwner_step {op : StorageOp} {m m' : Heap} (hm : m.SingleOwner)
    (hsound : op.allocatorSound m = true) (hr : op.step m = .ok m') : m'.SingleOwner := by
  cases op with
  | defaultConstruct =>
    simp only [StorageOp.step, Except.ok.injEq] at hr
    subst hr
    exact singleOwner_defaultConstruct hm
  | sizedConstruct pf size alignment =>
    simp only [StorageOp.step, Except.ok.injEq] at hr
    subst hr
    exact singleOwner_sizedConstruct pf size alignment hm hsound
  | moveConstruct other =>
    simp only [StorageOp.step] at hr
    cases hc : OpaqueStorage.moveConstruct other m with
    | error e => rw [hc] at hr; cases hr
    | ok r =>
      rw [hc] at hr
      simp only [Except.map, Except.ok.injEq] at hr
      subst hr
      exact singleOwner_moveConstruct hm hc
  | operatorAssign this other => exact singleOwner_operatorAssign hm hr
  | destroy this => exact singleOwner_destroy hm hr

theorem singleOwner_run (ops : List StorageOp) {m m' : Heap} (hm : m.SingleOwner)
    (hsound : allocatorSoundAlong ops m = true) (hr : runStorageOps ops m = .ok m') :
    m'.SingleOwner := by
  induction ops generalizing m with
  | nil =>
    simp only [runStorageOps, Except.ok.injEq] at hr
    subst hr
    exact hm
  | cons op ops ih =>
    simp only [runStorageOps, bind, Except.bind] at hr
    simp only [allocatorSoundAlong, Bool.and_eq_true] at hsound
    cases hs : op.step m with
    | error e => rw [hs] at hr; cases hr
    | ok m1 =>
      rw [hs] at hr
      have h2 := hsound.2
      rw [hs] at h2
      exact ih (singleOwner_step hm hsound.1 hs) h2 hr

/-- C8. Starting with no container at all, after every sequence of default
constructions, sized constructions, move constructions, move assignments and
destructions that runs to its end, the allocator keeping its contract: every
block address is held by at most one live container, a block is freed at most
once (no more frees than allocations at an address; the allocations at an
address are its frees and its one holder), and `nullptr` is never freed. Once
every container is destroyed, the frees at every address are as many as the
allocations at it: no double free and no leak. -/
theorem single_owner (ops : List StorageOp) (m : Heap)
    (hsound : allocatorSoundAlong ops Heap.init = true)
    (hr : runStorageOps ops Heap.init = .ok m) :
    (∀ p, p ≠ nullptr →
      m.holders p ≤ 1 ∧ m.freed.count p ≤ m.allocated.count p ∧
      m.holders p + m.freed.count p = m.allocated.count p) ∧
    m.freed.count nullptr = 0 ∧
    ((∀ o ∈ m.objects, o = none) → ∀ p, m.freed.count p = m.allocated.count p) := by
  obtain ⟨h1, h2, h3⟩ := singleOwner_run ops singleOwner_init hsound hr
  refine ⟨?_, h2, ?_⟩
  · intro p hp
    have := h3 p hp
    omega
  · intro hdead p
    by_cases hp : p = nullptr
    · subst hp; omega
    · have := h3 p hp
      have hz : m.holders p = 0 := by
        unfold Heap.holders
        apply List.count_eq_zero.2
        intro hmem
        cases hdead _ hmem
      omega

theorem single_owner_witness :
    ∃ m, runStorageOps
        [.sizedConstruct { sizeofVoidPtr := 8, posix_memalign := fun _ _ _ => (64, 0) } 24 8,
          .defaultConstruct, .operatorAssign 1 0, .moveConstruct 1, .destroy 0, .destroy 1,
          .destroy 2,
          .sizedConstruct { sizeofVoidPtr := 8, posix_memalign := fun _ _ _ => (64, 0) } 8 8,
          .destroy 3]
        Heap.init = .ok m ∧
      m.allocated = [64, 64] ∧ m.freed = [64, 64] ∧
      ((∀ p, p ≠ nullptr →
        m.holders p ≤ 1 ∧ m.freed.count p ≤ m.allocated.count p ∧
        m.holders p + m.freed.count p = m.allocated.count p) ∧
      m.freed.count nullptr = 0 ∧
      ((∀ o ∈ m.objects, o = none) → ∀ p, m.freed.count p = m.allocated.count p)) :=
  ⟨_, rfl, rfl, rfl, single_owner
    [.sizedConstruct { sizeofVoidPtr := 8, posix_memalign := fun _ _ _ => (64, 0) } 24 8,
      .defaultConstruct, .operatorAssign 1 0, .moveConstruct 1, .destroy 0, .destroy 1,
      .destroy 2,
      .sizedConstruct { sizeofVoidPtr := 8, posix_memalign := fun _ _ _ => (64, 0) } 8 8,
      .destroy 3]
    _ (by decide) rfl⟩

/-! ## `Expected<T>`: construction and access -/

/-- C3. The `Expected<T>` constructed from a value `v` has a value, `value()`
returns `v`, and `error()` aborts. -/
theorem ofValue_access {T E : Type} (v : T) :
    (Expected.ofValue v : Expected T E).has_value = true ∧
    (Expected.ofValue v : Expected T E).value = .ok v ∧
    (Expected.ofValue v : Expected T E).error = .error Fault.abort := by
  refine ⟨rfl, rfl, rfl⟩

/-- C4. The `Expected<T>` constructed from an error `e` has no value, `error()`
returns `e`, and `value()` aborts. -/
theorem ofError_access {T E : Type} (e : E) :
    (Expected.ofError e : Expected T E).has_value = false ∧
    (Expected.ofError e : Expected T E).error = .ok e ∧
    (Expected.ofError e : Expected T E).value = .error Fault.abort := by
  refine ⟨rfl, rfl, rfl⟩

/-! ## `Expected<T>`: copies -/

theorem copyConstruct_of_valid {T E : Type} (r : Expected T E) (hv : r.valid = true) :
    r.copyConstruct = .ok r := by
  obtain ⟨buf, hasv⟩ := r
  cases buf <;> cases hasv <;> simp [Expected.valid] at hv <;> rfl

/-- C5. Copy construction from a well-formed `Expected<T>` object `r` returns
a new object with the discriminant of `r` and a payload equal to the live
payload of `r`, and leaves `r` as it was. Assigning afterwards through
`value()` (for a success) or `error()` (for a failure) of the copy changes
the payload of the copy and leaves `r` as it was. -/
theorem copy_is_independent {T E : Type} (f : Frame T E) (src : Nat) (r : Expected T E)
    (hr : f[src]? = some r) (hv : r.valid = true) :
    ∃ c f', Frame.copyConstruct src f = .ok (f.length, f') ∧
      f'[src]? = some r ∧ f'[f.length]? = some c ∧ f'.length = f.length + 1 ∧
      c.has_value = r.has_value ∧ c.buffer = r.buffer ∧
      c.value = r.value ∧ c.error = r.error ∧
      (r.has_value = true → ∀ x, ∃ c' f'', Frame.assignValue f.length x f' = .ok f'' ∧
        f''[f.length]? = some c' ∧ c'.value = .ok x ∧ f''[src]? = some r) ∧
      (r.has_value = false → ∀ e, ∃ c' f'', Frame.assignError f.length e f' = .ok f'' ∧
        f''[f.length]? = some c' ∧ c'.error = .ok e ∧ f''[src]? = some r) := by
  have hlt : src < f.length := by
    by_contra hge
    rw [List.getElem?_eq_none (by omega)] at hr
    cases hr
  have hne : f.length ≠ src := by omega
  have hsrc : (f ++ [r])[src]? = some r := by
    rw [List.getElem?_append_left hlt]; exact hr
  have hnew : (f ++ [r])[f.length]? = some r := by simp
  refine ⟨r, f ++ [r], ?_, hsrc, hnew, by simp, rfl, rfl, rfl, rfl, ?_, ?_⟩
  · simp [Frame.copyConstruct, hr, copyConstruct_of_valid r hv, bind, Except.bind, pure,
      Except.pure]
  · intro hval x
    obtain ⟨buf, hasv⟩ := r
    cases buf with
    | ofError e0 => cases hasv <;> simp [Expected.valid, Expected.has_value] at hv hval
    | ofT v0 =>
      simp only [Expected.has_value] at hval
      subst hval
      refine ⟨Expected.ofValue x,
        (f ++ [Expected.ofValue v0]).set f.length (Expected.ofValue x), ?_, ?_, rfl, ?_⟩
      · simp [Frame.assignValue, Expected.assignValue, Expected.has_value, Expected.ofValue, bind,
          Except.bind, pure, Except.pure]
      · simp [List.getElem?_set]
      · rw [List.getElem?_set_ne hne]; exact hsrc
  · intro hval e
    obtain ⟨buf, hasv⟩ := r
    cases buf with
    | ofT v0 => cases hasv <;> simp [Expected.valid, Expected.has_value] at hv hval
    | ofError e0 =>
      simp only [Expected.has_value] at hval
      subst hval
      refine ⟨Expected.ofError e,
        (f ++ [Expected.ofError e0]).set f.length (Expected.ofError e), ?_, ?_, rfl, ?_⟩
      · simp [Frame.assignError, Expected.assignError, Expected.has_value, Expected.ofError, bind,
          Except.bind, pure, Except.pure]
      · simp [List.getElem?_set]
      · rw [List.getElem?_set_ne hne]; exact hsrc

theorem copy_is_independent_witness :
    ∃ c f', Frame.copyConstruct 1 [(Expected.ofError 5 : Expected Nat Nat), Expected.ofValue 3]
        = .ok (2, f') ∧
      f'[1]? = some (Expected.ofValue 3) ∧ f'[2]? = some c ∧ f'.length = 2 + 1 ∧
      c.has_value = (Expected.ofValue 3 : Expected Nat Nat).has_value ∧
      c.buffer = (Expected.ofValue 3 : Expected Nat Nat).buffer ∧
      c.value = (Expected.ofValue 3 : Expected Nat Nat).value ∧
      c.error = (Expected.ofValue 3 : Expected Nat Nat).error ∧
      ((Expected.ofValue 3 : Expected Nat Nat).has_value = true →
        ∀ x, ∃ c' f'', Frame.assignValue 2 x f' = .ok f'' ∧
          f''[2]? = some c' ∧ c'.value = .ok x ∧ f''[1]? = some (Expected.ofValue 3)) ∧
      ((Expected.ofValue 3 : Expected Nat Nat).has_value = false →
        ∀ e, ∃ c' f'', Frame.assignError 2 e f' = .ok f'' ∧
          f''[2]? = some c' ∧ c'.error = .ok e ∧ f''[1]? = some (Expected.ofValue 3)) :=
  copy_is_independent [(Expected.ofError 5 : Expected Nat Nat), Expected.ofValue 3] 1
    (Expected.ofValue 3) (by decide) (by decide)

/-! ## Moves -/

theorem opaqueAlloc_eq (pf : Platform) (size align : Nat) :
    opaqueAlloc pf size align = (pf.posix_memalign nullptr (allocAlign pf align) size).1 := rfl

theorem sizedConstruct_load (pf : Platform) (size alignment : Nat) (m : Heap) :
    (OpaqueStorage.sizedConstruct pf size alignment m).2.load
        (OpaqueStorage.sizedConstruct pf size alignment m).1
      = .ok (opaqueAlloc pf size alignment) := by
  apply heap_load_eq_ok.2
  simp [OpaqueStorage.sizedConstruct]

/-- The pointer a sized construction stores is a multiple of the requested
alignment whenever the allocator succeeds and the requested alignment is at
least the pointer size or divides it. -/
theorem alloc_result_aligned (pf : Platform) (size alignment : Nat) (m : Heap)
    (hal : alignment ∣ pf.sizeofVoidPtr ∨ pf.sizeofVoidPtr ≤ alignment)
    (hok : pf.succeedsAt nullptr (allocAlign pf alignment) size = true) :
    opaqueAlloc pf size alignment
      = (pf.posix_memalign nullptr
          (if alignment < pf.sizeofVoidPtr then pf.sizeofVoidPtr else alignment) size).1 ∧
    alignment ≤ allocAlign pf alignment ∧ pf.sizeofVoidPtr ≤ allocAlign pf alignment ∧
    ∃ p, (OpaqueStorage.sizedConstruct pf size alignment m).2.load
          (OpaqueStorage.sizedConstruct pf size alignment m).1 = .ok p ∧
      p ≠ nullptr ∧ alignment ∣ p ∧ p % alignment = 0 := by
  simp only [Platform.succeedsAt, Bool.and_eq_true, beq_iff_eq, bne_iff_ne, ne_eq] at hok
  obtain ⟨⟨-, hnn⟩, hmod⟩ := hok
  have hdvd : alignment ∣ allocAlign pf alignment := by
    unfold allocAlign
    split
    · next hlt =>
      rcases hal with h | h
      · exact h
      · omega
    · exact dvd_refl _
  have hp : alignment ∣ opaqueAlloc pf size alignment := by
    rw [opaqueAlloc_eq]
    exact dvd_trans hdvd (Nat.dvd_of_mod_eq_zero hmod)
  refine ⟨rfl, ?_, ?_, opaqueAlloc pf size alignment, sizedConstruct_load pf size alignment m,
    ?_, hp, Nat.mod_eq_zero_of_dvd hp⟩
  · unfold allocAlign; split <;> omega
  · unfold allocAlign; split <;> omega
  · rw [opaqueAlloc_eq]; exact hnn

/-- C12. For every size and every alignment (an alignment is a power of two,
and so is the pointer size), when the platform allocator succeeds (status 0,
a non-null address that is a multiple of the alignment it was asked for), the
container constructed with that size and alignment holds a non-null pointer
whose address is a multiple of the requested alignment. The alignment passed
to the allocator is the requested one, raised to the pointer size when it is
smaller. -/
theorem sized_construct_aligned (pf : Platform) (size alignment k j : Nat) (m : Heap)
    (hal : alignment = 2 ^ k) (hptr : pf.sizeofVoidPtr = 2 ^ j)
    (hok : pf.succeedsAt nullptr (allocAlign pf alignment) size = true) :
    opaqueAlloc pf size alignment
      = (pf.posix_memalign nullptr
          (if alignment < pf.sizeofVoidPtr then pf.sizeofVoidPtr else alignment) size).1 ∧
    alignment ≤ allocAlign pf alignment ∧ pf.sizeofVoidPtr ≤ allocAlign pf alignment ∧
    (allocAlign pf alignment = alignment ∨ allocAlign pf alignment = pf.sizeofVoidPtr) ∧
    ∃ p, (OpaqueStorage.sizedConstruct pf size alignment m).2.load
          (OpaqueStorage.sizedConstruct pf size alignment m).1 = .ok p ∧
      p ≠ nullptr ∧ alignment ∣ p ∧ p % alignment = 0 := by
  have hcase : alignment ∣ pf.sizeofVoidPtr ∨ pf.sizeofVoidPtr ≤ alignment := by
    rw [hal, hptr]
    rcases Nat.le_total k j with h | h
    · exact Or.inl (pow_dvd_pow 2 h)
    · exact Or.inr (Nat.pow_le_pow_right (by decide) h)
  obtain ⟨h1, h2, h3, h4⟩ := alloc_result_aligned pf size alignment m hcase hok
  refine ⟨h1, h2, h3, ?_, h4⟩
  unfold allocAlign
  split
  · exact Or.inr rfl
  · exact Or.inl rfl

theorem sized_construct_aligned_witness :
    opaqueAlloc { sizeofVoidPtr := 8, posix_memalign := fun _ a _ => (4 * a, 0) } 24 2
      = (Platform.posix_memalign { sizeofVoidPtr := 8, posix_memalign := fun _ a _ => (4 * a, 0) }
          nullptr
          (if 2 < Platform.sizeofVoidPtr
              { sizeofVoidPtr := 8, posix_memalign := fun _ a _ => (4 * a, 0) }
            then Platform.sizeofVoidPtr
              { sizeofVoidPtr := 8, posix_memalign := fun _ a _ => (4 * a, 0) }
            else 2) 24).1 ∧
    2 ≤ allocAlign { sizeofVoidPtr := 8, posix_memalign := fun _ a _ => (4 * a, 0) } 2 ∧
    Platform.sizeofVoidPtr { sizeofVoidPtr := 8, posix_memalign := fun _ a _ => (4 * a, 0) }
      ≤ allocAlign { sizeofVoidPtr := 8, posix_memalign := fun _ a _ => (4 * a, 0) } 2 ∧
    (allocAlign { sizeofVoidPtr := 8, posix_memalign := fun _ a _ => (4 * a, 0) } 2 = 2 ∨
      allocAlign { sizeofVoidPtr := 8, posix_memalign := fun _ a _ => (4 * a, 0) } 2
        = Platform.sizeofVoidPtr
            { sizeofVoidPtr := 8, posix_memalign := fun _ a _ => (4 * a, 0) }) ∧
    ∃ p, (OpaqueStorage.sizedConstruct
          { sizeofVoidPtr := 8, posix_memalign := fun _ a _ => (4 * a, 0) } 24 2 Heap.init).2.load
          (OpaqueStorage.sizedConstruct
            { sizeofVoidPtr := 8, posix_memalign := fun _ a _ => (4 * a, 0) } 24 2 Heap.init).1
          = .ok p ∧
      p ≠ nullptr ∧ 2 ∣ p ∧ p % 2 = 0 :=
  sized_construct_aligned { sizeofVoidPtr := 8, posix_memalign := fun _ a _ => (4 * a, 0) }
    24 2 1 3 Heap.init (by decide) (by decide) (by decide)

/-- C17. When the platform allocator fails on the request of a sized
construction (a status other than 0, the pointer left null), the construction
returns like any other: the container holds null storage, the state is the
one a default construction gives, and destroying the container frees
nothing. -/
theorem sized_alloc_failure (pf : Platform) (size alignment : Nat) (m : Heap)
    (hfail : pf.failsAt nullptr (allocAlign pf alignment) size = true) :
    OpaqueStorage.sizedConstruct pf size alignment m = OpaqueStorage.defaultConstruct m ∧
    (OpaqueStorage.sizedConstruct pf size alignment m).2.load
        (OpaqueStorage.sizedConstruct pf size alignment m).1 = .ok nullptr ∧
    (OpaqueStorage.sizedConstruct pf size alignment m).2.allocated = m.allocated ∧
    ∃ m', OpaqueStorage.destroy (OpaqueStorage.sizedConstruct pf size alignment m).1
        (OpaqueStorage.sizedConstruct pf size alignment m).2 = .ok m' ∧
      m'.freed = m.freed := by
  simp only [Platform.failsAt, Bool.and_eq_true, beq_iff_eq, bne_iff_ne, ne_eq] at hfail
  have hnull : opaqueAlloc pf size alignment = nullptr := by
    rw [opaqueAlloc_eq]; exact hfail.2
  have hload := sizedConstruct_load pf size alignment m
  rw [hnull] at hload
  have heq : OpaqueStorage.sizedConstruct pf size alignment m
      = OpaqueStorage.defaultConstruct m := by
    simp [OpaqueStorage.sizedConstruct, OpaqueStorage.defaultConstruct, hnull]
  refine ⟨heq, hload, ?_, _, storage_destroy_eq hload, ?_⟩
  · rw [heq]; rfl
  · rw [heq]; simp [OpaqueStorage.defaultConstruct]

theorem sized_alloc_failure_witness :
    OpaqueStorage.sizedConstruct
        { sizeofVoidPtr := 8, posix_memalign := fun r _ _ => (r, 12) } 24 16 Heap.init
      = OpaqueStorage.defaultConstruct Heap.init ∧
    (OpaqueStorage.sizedConstruct
        { sizeofVoidPtr := 8, posix_memalign := fun r _ _ => (r, 12) } 24 16 Heap.init).2.load
      (OpaqueStorage.sizedConstruct
        { sizeofVoidPtr := 8, posix_memalign := fun r _ _ => (r, 12) } 24 16 Heap.init).1
      = .ok nullptr ∧
    (OpaqueStorage.sizedConstruct
        { sizeofVoidPtr := 8, posix_memalign := fun r _ _ => (r, 12) } 24 16 Heap.init).2.allocated
      = Heap.init.allocated ∧
    ∃ m', OpaqueStorage.destroy
        (OpaqueStorage.sizedConstruct
          { sizeofVoidPtr := 8, posix_memalign := fun r _ _ => (r, 12) } 24 16 Heap.init).1
        (OpaqueStorage.sizedConstruct
          { sizeofVoidPtr := 8, posix_memalign := fun r _ _ => (r, 12) } 24 16 Heap.init).2
        = .ok m' ∧
      m'.freed = Heap.init.freed :=
  sized_alloc_failure { sizeofVoidPtr := 8, posix_memalign := fun r _ _ => (r, 12) } 24 16
    Heap.init (by decide)

/-! ## `Expected<T>`: default construction, accessors, payload -/

/-- C13. The default-constructed `Expected<T>` has no value, `error()` returns
the default-constructed error, and `value()` aborts. -/
theorem defaultConstruct_access {T E : Type} (defaultError : E) :
    (Expected.defaultConstruct defaultError : Expected T E).has_value = false ∧
    (Expected.defaultConstruct defaultError : Expected T E).error = .ok defaultError ∧
    (Expected.defaultConstruct defaultError : Expected T E).value = .error Fault.abort := by
  refine ⟨rfl, rfl, rfl⟩

theorem value_abort_iff {T E : Type} (r : Expected T E) :
    r.value = .error Fault.abort ↔ r.has_value = false := by
  obtain ⟨buf, hasv⟩ := r
  cases buf <;> cases hasv <;> simp [Expected.value, Expected.has_value]

/-- C14. For every `Expected<T>`, `operator*` and `operator->` abort exactly
when `value()` aborts, which is exactly when `has_value()` is false, and
otherwise give the payload `value()` gives; `operator bool` returns
`has_value()`. -/
theorem convenience_accessors_agree {T E : Type} (r : Expected T E) :
    (r.operatorStar = .error Fault.abort ↔ r.value = .error Fault.abort) ∧
    (r.operatorArrow = .error Fault.abort ↔ r.value = .error Fault.abort) ∧
    (r.value = .error Fault.abort ↔ r.has_value = false) ∧
    r.operatorStar = r.value ∧ r.operatorArrow = r.value ∧
    r.operatorBool = r.has_value := by
  have hs : r.operatorStar = r.value := by
    obtain ⟨buf, hasv⟩ := r
    cases buf <;> cases hasv <;> rfl
  have ha : r.operatorArrow = r.value := by
    obtain ⟨buf, hasv⟩ := r
    cases buf <;> cases hasv <;> rfl
  refine ⟨?_, ?_, value_abort_iff r, hs, ha, rfl⟩
  · rw [hs]
  · rw [ha]

theorem constructed_valid {T E : Type} {r : Expected T E} (hr : Expected.Constructed r) :
    r.valid = true := by
  induction hr with
  | byDefault d => rfl
  | fromError e => rfl
  | fromValue v => rfl
  | byCopy other c _ hcopy ih =>
    rw [copyConstruct_of_valid other ih] at hcopy
    cases hcopy
    exact ih

/-- C18. Every `Expected<T>` that a constructor produced (default, from an
error, from a value, by copy) has one payload alive in its buffer, a `T`
when `has_val` is true and an error when `has_val` is false, and its
destructor returns having run the destructor of that payload: the one of `T`
if `has_val`, the one of the error otherwise. -/
theorem payload_matches_discriminant {T E : Type} (r : Expected T E)
    (hr : Expected.Constructed r) :
    r.valid = true ∧
    (r.has_val = true → (∃ v, r.buffer = Buffer.ofT v) ∧ r.destroy = .ok Destructor.ofT) ∧
    (r.has_val = false →
      (∃ e, r.buffer = Buffer.ofError e) ∧ r.destroy = .ok Destructor.ofError) ∧
    r.destroy = .ok (if r.has_val then Destructor.ofT else Destructor.ofError) := by
  have hv := constructed_valid hr
  obtain ⟨buf, hasv⟩ := r
  cases buf with
  | ofT v =>
    cases hasv
    · simp [Expected.valid] at hv
    · exact ⟨rfl, fun _ => ⟨⟨v, rfl⟩, rfl⟩, fun h => (by cases h), rfl⟩
  | ofError e =>
    cases hasv
    · exact ⟨rfl, fun h => (by cases h), fun _ => ⟨⟨e, rfl⟩, rfl⟩, rfl⟩
    · simp [Expected.valid] at hv

theorem payload_matches_discriminant_witness :
    (Expected.ofValue 3 : Expected Nat Nat).valid = true ∧
    ((Expected.ofValue 3 : Expected Nat Nat).has_val = true →
      (∃ v, (Expected.ofValue 3 : Expected Nat Nat).buffer = Buffer.ofT v) ∧
      (Expected.ofValue 3 : Expected Nat Nat).destroy = .ok Destructor.ofT) ∧
    ((Expected.ofValue 3 : Expected Nat Nat).has_val = false →
      (∃ e, (Expected.ofValue 3 : Expected Nat Nat).buffer = Buffer.ofError e) ∧
      (Expected.ofValue 3 : Expected Nat Nat).destroy = .ok Destructor.ofError) ∧
    (Expected.ofValue 3 : Expected Nat Nat).destroy
      = .ok (if (Expected.ofValue 3 : Expected Nat Nat).has_val then Destructor.ofT
          else Destructor.ofError) :=
  payload_matches_discriminant (Expected.ofValue 3 : Expected Nat Nat)
    (Expected.Constructed.byCopy (Expected.ofValue 3) (Expected.ofValue 3)
      (Expected.Constructed.fromValue 3) (by decide))

/-- C19. For all sizes `a` and `b`, `max a b` is at least `a`, at least `b`,
and equal to `a` or to `b`; so the buffer of `Expected<T>` has at least the
size of `T`, at least the size of the error, and the size of one of them,
and likewise for its alignment. -/
theorem max_bounds (a b : Nat) :
    a ≤ swift.max a b ∧ b ≤ swift.max a b ∧ (swift.max a b = a ∨ swift.max a b = b) ∧
    a ≤ Expected.bufferSize a b ∧ b ≤ Expected.bufferSize a b ∧
    (Expected.bufferSize a b = a ∨ Expected.bufferSize a b = b) ∧
    a ≤ Expected.bufferAlign a b ∧ b ≤ Expected.bufferAlign a b := by
  unfold Expected.bufferSize Expected.bufferAlign swift.max
  split <;> omega

/-! ## Copy assignment and the implementation accessors -/

/-- C15. The copy assignment of handle `b` to handle `a` returns after
exactly two runtime calls, a retain on the pointer of `b` followed by a
release on the former pointer of `a`; afterwards `a` has the pointer of `b`,
`b` and every handle other than `a` are as before, and when the two pointers
differ the credit count of the object of `b` is one higher, that of the
former object of `a` one lower, and every other credit count as before. -/
theorem copy_assign_effect (w : Runtime) (a b : Nat) (pa pb : Ptr)
    (ha : w.load a = .ok pa) (hb : w.load b = .ok pb) :
    ∃ w', RefCountedClass.operatorAssign a b w = .ok w' ∧
      w'.calls = w.calls ++ [Call.retain pb, Call.release pa] ∧
      w'.load a = .ok pb ∧ w'.load b = .ok pb ∧
      (∀ c, c ≠ a → w'.load c = w.load c) ∧
      (pa ≠ pb → w'.credits pb = w.credits pb + 1 ∧ w'.credits pa = w.credits pa - 1) ∧
      (∀ q, q ≠ pa → q ≠ pb → w'.credits q = w.credits q) := by
  have halt := load_lt ha
  have hbget := load_getElem hb
  have hframe : ∀ c, c ≠ a →
      Runtime.load
        { objects := w.objects.set a (some pb), adopted := w.adopted,
          calls := w.calls ++ [Call.retain pb, Call.release pa] } c = w.load c := by
    intro c hc
    have h1 : ¬ (a = c) := fun e => hc e.symm
    simp [Runtime.load, List.getElem?_set, h1]
  have ha' : Runtime.load
      { objects := w.objects.set a (some pb), adopted := w.adopted,
        calls := w.calls ++ [Call.retain pb, Call.release pa] } a = .ok pb := by
    apply load_eq_ok.2
    simp [List.getElem?_set, halt]
  refine ⟨_, operatorAssign_eq ha hb, rfl, ha', ?_, hframe, ?_, ?_⟩
  · by_cases he : b = a
    · subst he; exact ha'
    · rw [hframe b he]; exact hb
  · intro hne
    have hne2 : ¬ (pb = pa) := fun e => hne e.symm
    constructor
    · show creditsAt _ _ pb = creditsAt _ _ pb + 1
      rw [creditsAt_append]
      simp [hne]
    · show creditsAt _ _ pa = creditsAt _ _ pa - 1
      rw [creditsAt_append]
      simp [hne2]
  · intro q hqa hqb
    have h1 : ¬ (pa = q) := fun e => hqa e.symm
    have h2 : ¬ (pb = q) := fun e => hqb e.symm
    show creditsAt _ _ q = creditsAt _ _ q
    rw [creditsAt_append]
    simp [h1, h2]

theorem copy_assign_effect_witness :
    ∃ w', RefCountedClass.operatorAssign 0 1
        { objects := [some 7, some 9], adopted := [7, 9], calls := [] } = .ok w' ∧
      w'.calls = [] ++ [Call.retain 9, Call.release 7] ∧
      w'.load 0 = .ok 9 ∧ w'.load 1 = .ok 9 ∧
      (∀ c, c ≠ 0 → w'.load c
        = Runtime.load { objects := [some 7, some 9], adopted := [7, 9], calls := [] } c) ∧
      ((7 : Ptr) ≠ 9 →
        w'.credits 9
          = Runtime.credits { objects := [some 7, some 9], adopted := [7, 9], calls := [] } 9 + 1 ∧
        w'.credits 7
          = Runtime.credits { objects := [some 7, some 9], adopted := [7, 9], calls := [] } 7
            - 1) ∧
      (∀ q, q ≠ 7 → q ≠ 9 → w'.credits q
        = Runtime.credits { objects := [some 7, some 9], adopted := [7, 9], calls := [] } q) :=
  copy_assign_effect { objects := [some 7, some 9], adopted := [7, 9], calls := [] } 0 1 7 9
    (by decide) (by decide)

/-- C16. For a live handle `h` with raw pointer `p`: `getOpaquePointer`
returns `p` and leaves the state, call log included, as it was;
`copyOpaquePointer` returns `p` after exactly one runtime call, a retain on
`p`, and leaves every handle, `h` included, as it was. -/
theorem impl_accessors (w : Runtime) (h : Nat) (p : Ptr) (hl : w.load h = .ok p) :
    _impl_RefCountedClass.getOpaquePointer h w = .ok (p, w) ∧
    ∃ w', _impl_RefCountedClass.copyOpaquePointer h w = .ok (p, w') ∧
      w'.calls = w.calls ++ [Call.retain p] ∧ w'.objects = w.objects ∧
      w'.adopted = w.adopted ∧ w'.load h = .ok p := by
  have hget := load_getElem hl
  refine ⟨?_, swift_retain p w, ?_, rfl, rfl, rfl, ?_⟩
  · simp [_impl_RefCountedClass.getOpaquePointer, hl, bind, Except.bind, pure, Except.pure]
  · simp [_impl_RefCountedClass.copyOpaquePointer, hl, bind, Except.bind, pure, Except.pure]
  · rw [load_swift_retain]; exact hl

theorem impl_accessors_witness :
    _impl_RefCountedClass.getOpaquePointer 0 { objects := [some 7], adopted := [7], calls := [] }
      = .ok (7, { objects := [some 7], adopted := [7], calls := [] }) ∧
    ∃ w', _impl_RefCountedClass.copyOpaquePointer 0
        { objects := [some 7], adopted := [7], calls := [] } = .ok (7, w') ∧
      w'.calls = [] ++ [Call.retain 7] ∧ w'.objects = [some 7] ∧
      w'.adopted = [7] ∧ w'.load 0 = .ok 7 :=
  impl_accessors { objects := [some 7], adopted := [7], calls := [] } 0 7 (by decide)

end swift
